import Mathlib

/-!
Shallow embedding of the museum-dataset scraper (src/src/scraper.py) and
proofs about its cleaning, extraction and caching behaviour.

Modelling conventions:
* Python strings are lists of characters (List Char).
* Python float values are exact rationals (ℚ); decimal text such as
  1.2 denotes the exact rational 12/10.  The IEEE rounding of CPython
  floats is not modelled; no property below depends on it.
* numpy's nan missing marker is the value none of Option ℚ.
* A Python exception is Except.error (); a normal return is Except.ok.
* Only the ASCII fragments of the regex classes \d, \s, [a-zA-Z] are
  modelled: every character the scraper compares against is ASCII.
-/

namespace Museum

/-- View of a Lean string literal as the list-of-characters model. -/
def chars (s : String) : List Char := s.data

/-- The regex class \d restricted to ASCII: code points 48-57. -/
def isDigitCh (c : Char) : Bool := 48 ≤ c.toNat && c.toNat ≤ 57

/-- The regex class \s restricted to ASCII: space, tab, newline,
carriage return, vertical tab, form feed. -/
def isSpaceCh (c : Char) : Bool :=
  c.toNat == 32 || c.toNat == 9 || c.toNat == 10 ||
  c.toNat == 13 || c.toNat == 11 || c.toNat == 12

/-- The regex class [a-zA-Z]: code points 97-122 and 65-90. -/
def isAlphaCh (c : Char) : Bool :=
  (97 ≤ c.toNat && c.toNat ≤ 122) || (65 ≤ c.toNat && c.toNat ≤ 90)

/-- The regex class [\d,] used for the integer part of a visitors number:
a digit or a comma (code point 44). -/
def isNumCh (c : Char) : Bool := isDigitCh c || c.toNat == 44

/-- The regex class [\d,\.] used by clean_collection_size: a digit, a
comma (44) or a dot (46). -/
def isNumDotCh (c : Char) : Bool := isDigitCh c || c.toNat == 44 || c.toNat == 46

/-- Numeric value of a digit string read left to right, as in Python
int/float parsing of the integer mantissa. -/
def digitsVal (l : List Char) : ℕ := l.foldl (fun n c => 10 * n + (c.toNat - 48)) 0

/-- Length of the fractional part of a decimal token: the number of
characters after the first dot (0 when there is no dot). -/
def fracLen (s : List Char) : ℕ := ((s.dropWhile (fun c => !(c == '.'))).drop 1).length

/-- Mantissa of a decimal token: its digits read as one integer. -/
def mantissa (s : List Char) : ℕ := digitsVal (s.filter isDigitCh)

/-- Exact value of a decimal token made of digits and at most one dot,
the value CPython float() parses (modelled exactly, see header). -/
def decimalVal (s : List Char) : ℚ := (mantissa s : ℚ) / 10 ^ fracLen s

/-- Whether CPython float() accepts a token made only of digits and
dots: at least one digit and at most one dot.  float("") and float(".")
raise ValueError; float("1."), float(".5"), float("12") succeed. -/
def pyFloatValid (s : List Char) : Bool :=
  s.any isDigitCh && (s.filter (fun c => c == '.')).length ≤ 1

/-! ## extract_first_city_part (scraper.py lines 197-208)

The pandas pipeline is df.str.split(regex comma-then-whitespace, n=1)
followed by .str[0].  A match of the separator pattern must start with
the comma, so the n=1 split produces the prefix before the first comma,
then the suffix with its leading whitespace run removed. -/

/-- One n=1 regex split of a cell at the first comma (the separator
being a comma followed by the maximal run of whitespace). -/
def splitCommaWsOnce : List Char → List (List Char)
  | [] => [[]]
  | c :: rest =>
    if c == ',' then [[], rest.dropWhile isSpaceCh]
    else
      match splitCommaWsOnce rest with
      | p :: q => (c :: p) :: q
      | [] => [[c]]

/-- Cell-level model of extract_first_city_part: the first piece of the
n=1 split. -/
def extract_first_city_part (s : List Char) : List Char :=
  (splitCommaWsOnce s).headD []

/-- Modelled from the words of the claim for comparison: the substring
before the first occurrence of the two-character separator ", ". -/
def beforeCommaSpace : List Char → List Char
  | [] => []
  | ',' :: ' ' :: _ => []
  | c :: rest => c :: beforeCommaSpace rest

/-! ## convert_million_values (scraper.py lines 184-195)

The code runs str.extract with the pattern
  group 1: [\d,]+ then optionally a dot and \d+ ; then \s* ;
  group 2: the word million, IGNORECASE.
pandas str.extract searches (re.search): the pattern may match anywhere
in the cell.  For this pattern greedy matching with backtracking
coincides with maximal munch: shortening the [\d,]+ run leaves a digit
or comma where whitespace or the letter m is required, shortening the
\d+ run after the dot leaves a digit, and dropping the optional decimal
group leaves a dot, so every backtracking alternative fails whenever
the maximal-munch attempt fails. -/

/-- Attempt of the visitors pattern at the start of s; returns group 1
(the numeric token) on success. -/
def millionMatchAt (s : List Char) : Option (List Char) :=
  let r1 := s.takeWhile isNumCh
  if r1.isEmpty then none
  else
    let rest1 := s.drop r1.length
    let gr : List Char × List Char :=
      match rest1 with
      | '.' :: t =>
        let ds := t.takeWhile isDigitCh
        if ds.isEmpty then (r1, rest1) else (r1 ++ '.' :: ds, t.drop ds.length)
      | _ => (r1, rest1)
    let rest2 := gr.2.dropWhile isSpaceCh
    if (rest2.take 7).map Char.toLower == chars (r"million") then some gr.1 else none

/-- re.search of the visitors pattern: the match attempt at the
leftmost position that succeeds. -/
def millionSearch : List Char → Option (List Char)
  | [] => none
  | c :: rest =>
    match millionMatchAt (c :: rest) with
    | some g => some g
    | none => millionSearch rest

/-- Digits of n grouped in threes from the right (helper for the
thousands formatting below); input and output are reversed. -/
def group3 : List Char → List Char
  | a :: b :: c :: d :: rest => a :: b :: c :: ',' :: group3 (d :: rest)
  | l => l

/-- Python format spec {n:,}: decimal digits with thousands commas. -/
def commaGroup (n : ℕ) : List Char := (group3 (Nat.toDigits 10 n).reverse).reverse

/-- Value written into a matched visitors cell: the matched numeric
token with commas removed, times 1000000, truncated by int() (the value
is nonnegative, so int() is the floor, computed here exactly). -/
def millionCellValue (g : List Char) : ℕ :=
  let digits := g.filter (fun c => !(c == ','))
  mantissa digits * 1000000 / 10 ^ fracLen digits

/-- Column-level model of convert_million_values.  The vectorised
astype(float) parses every matched group before any cell is written,
so one invalid group (only commas, hence float("")) raises for the
whole call; otherwise every matched cell is replaced by the formatted
converted number and every unmatched cell is kept. -/
def convert_million_values (col : List (List Char)) : Except Unit (List (List Char)) :=
  if (col.map millionSearch).any (fun o =>
      match o with
      | some g => !(pyFloatValid (g.filter (fun c => !(c == ','))))
      | none => false) then
    .error ()
  else
    .ok (col.map (fun s =>
      match millionSearch s with
      | none => s
      | some g => commaGroup (millionCellValue g)))

/-- Modelled from the words of the claim for comparison: whether the
whole cell is one match of the number-then-million pattern (number made
of digits with optional commas and at most one decimal part). -/
def isFullMillionMatch (s : List Char) : Bool :=
  let num := s.takeWhile isNumDotCh
  let rest := (s.drop num.length).dropWhile isSpaceCh
  !num.isEmpty && pyFloatValid (num.filter (fun c => !(c == ','))) &&
    rest.map Char.toLower == chars (r"million")

/-! ## clean_collection_size (scraper.py lines 161-182)

Step 1 is re.sub deleting every citation (an opening bracket, one or
more digits, a closing bracket) and every approximation glyph.  The
single left-to-right sub scan is equivalent to first deleting the
citations from the raw text and then filtering out the glyphs: the sub
engine matches citations against the raw suffix at each position, never
against already-edited text, and glyph deletions are independent
single-character matches.  Citation deletion is implemented as one
structural pass with a buffer: after an opening bracket the buffer
collects the digit run; a closing bracket after at least one digit
completes the deletion; any other character abandons the candidate and
replays the bracket and the buffered digits, which is faithful because
buffered digits are ordinary characters for the scan (they are kept,
and cannot start a citation). -/

/-- Citation-deleting pass.  none: normal scanning; some buf: inside a
candidate citation whose digits so far are buf (reversed). -/
def rcCite : List Char → Option (List Char) → List Char
  | [], none => []
  | [], some buf => '[' :: buf.reverse
  | c :: rest, none =>
    if c == '[' then rcCite rest (some [])
    else c :: rcCite rest none
  | c :: rest, some buf =>
    if isDigitCh c then rcCite rest (some (c :: buf))
    else if c == ']' && !buf.isEmpty then rcCite rest none
    else if c == '[' then ('[' :: buf.reverse) ++ rcCite rest (some [])
    else '[' :: buf.reverse ++ c :: rcCite rest none

/-- The full re.sub of scraper.py line 172: delete citations, then
delete the two approximation glyphs. -/
def subCiteApprox (s : List Char) : List Char :=
  (rcCite s none).filter (fun c => !(c == '≈') && !(c == '~'))

/-- Python str.strip restricted to the ASCII whitespace of isSpaceCh. -/
def stripChars (s : List Char) : List Char :=
  ((s.dropWhile isSpaceCh).reverse.dropWhile isSpaceCh).reverse

/-- Model of clean_collection_size.  re.match anchors the pattern
numeric-token, \s*, alphabetic-token at the start; maximal munch
coincides with greedy backtracking by the same disjointness argument as
for the visitors pattern.  float() of the de-commaed numeric token can
raise (the token may hold no digit, or several dots), and that
ValueError propagates: the code has no handler. -/
def clean_collection_size (raw : List Char) : Except Unit (Option ℚ) :=
  let cl := stripChars (subCiteApprox raw)
  let q := cl.takeWhile isNumDotCh
  if q.isEmpty then .ok none
  else
    let rest := (cl.drop q.length).dropWhile isSpaceCh
    let uw := rest.takeWhile isAlphaCh
    if uw.isEmpty then .ok none
    else
      let digits := q.filter (fun c => !(c == ','))
      if pyFloatValid digits then
        .ok (some (if uw.map Char.toLower == chars (r"million")
                   then decimalVal digits * 1000000 else decimalVal digits))
      else .error ()

/-! ## museum_wiki_link_generator (scraper.py lines 96-116)

An HTML table is a list of tr rows; a row holds its td cells in order;
a cell holds the anchor elements found inside it in document order,
each with an optional href attribute.  The generator drops the first
tr, and for each remaining row with more than one td cell whose first
cell has a first anchor carrying a nonempty href, yields a counter
paired with the absolute URL; the counter advances only on a yield. -/

structure ALink where
  href : Option (List Char)
deriving DecidableEq

structure TCell where
  links : List ALink
deriving DecidableEq

structure TRow where
  cells : List TCell
deriving DecidableEq

/-- The row predicate of the generator body: more than one td cell, a
first anchor in the first cell, an href present and nonempty (Python
truthiness of the attribute value). -/
def rowHref (r : TRow) : Option (List Char) :=
  match r.cells with
  | c0 :: _ :: _ =>
    match c0.links with
    | l :: _ =>
      match l.href with
      | some h => if h.isEmpty then none else some h
      | none => none
    | [] => none
  | _ => none

/-- The absolute-URL prefix of scraper.py line 114. -/
def wikiBase : List Char := chars (r"https://en.wikipedia.org")

/-- Loop of the generator with its counter i. -/
def linkGenAux : ℕ → List TRow → List (ℕ × List Char)
  | _, [] => []
  | i, r :: rest =>
    match rowHref r with
    | some h => (i, wikiBase ++ h) :: linkGenAux (i + 1) rest
    | none => linkGenAux i rest

/-- Model of museum_wiki_link_generator: skip the header tr, then run
the counting loop from 0. -/
def museum_wiki_link_generator (table : List TRow) : List (ℕ × List Char) :=
  linkGenAux 0 (table.drop 1)

/-- The rows the accompanying raw-table parse indexes positionally:
pd.read_html turns the non-header tr rows, in order, into rows 0, 1,
... of the dataframe (same single-header skipping as the generator). -/
def rawRows (table : List TRow) : List TRow := table.drop 1

/-! ## Infobox features (scraper.py lines 118-159 and the class tables)

A detail page is none when it has no infobox table, some rows
otherwise; an infobox row holds the text of its th/td cells in
document order. -/

structure IRow where
  cells : List (List Char)
deriving DecidableEq

/-- Scraper.TYPE. -/
def featTYPE : List Char := chars (r"type")

/-- Scraper.COLLECTION_SIZE. -/
def featCOLLECTION_SIZE : List Char := chars (r"collection_size")

/-- Scraper.MODEL_FEATURE_REVERSE_MAPPING as a lookup function. -/
def MODEL_FEATURE_REVERSE_MAPPING (k : List Char) : Option (List Char) :=
  if k == chars (r"type") then some featTYPE
  else if k == chars (r"genre") then some featTYPE
  else if k == chars (r"collection size") then some featCOLLECTION_SIZE
  else if k == chars (r"holdings") then some featCOLLECTION_SIZE
  else none

/-- Model of handle_infobox: every row with at least two th/td cells
yields its lower-cased first cell and its second cell. -/
def handle_infobox (ib : List IRow) : List (List Char × List Char) :=
  ib.filterMap (fun r =>
    match r.cells with
    | k :: v :: _ => some (k.map Char.toLower, v)
    | _ => none)

/-- The features dict built by get_museum_features: each canonical
feature is none while its key has not been seen. -/
structure FeatureDict where
  ftype : Option (List Char) := none
  fsize : Option (Option ℚ) := none
deriving DecidableEq

/-- The key/value loop of get_museum_features lines 135-140; a
ValueError escaping clean_collection_size aborts the whole call. -/
def buildFeatures : List (List Char × List Char) → FeatureDict → Except Unit FeatureDict
  | [], d => .ok d
  | (k, v) :: rest, d =>
    match MODEL_FEATURE_REVERSE_MAPPING k with
    | some f =>
      if f == featTYPE then buildFeatures rest { d with ftype := some v }
      else
        match clean_collection_size v with
        | .error e => .error e
        | .ok q => buildFeatures rest { d with fsize := some q }
    | none => buildFeatures rest d

/-- Model of get_museum_features on an already-fetched page: an absent
infobox yields the empty dict, otherwise the key/value scan runs. -/
def get_museum_features (page : Option (List IRow)) : Except Unit FeatureDict :=
  match page with
  | none => .ok {}
  | some ib => buildFeatures (handle_infobox ib) {}

/-- Scraper.MODEL_FEATURES default for type, and the features.get
lookup add_features performs for it. -/
def featureType (d : FeatureDict) : List Char := d.ftype.getD (chars (r"N/A"))

/-- The features.get lookup for collection_size; the MODEL_FEATURES
default is the nan marker none. -/
def featureSize (d : FeatureDict) : Option ℚ := d.fsize.getD none

/-- Whether the infobox scan ever sees a key mapped to type. -/
def typeKeySeen (ib : List IRow) : Bool :=
  (handle_infobox ib).any (fun kv => MODEL_FEATURE_REVERSE_MAPPING kv.1 == some featTYPE)

/-- Whether the infobox scan ever sees a key mapped to collection_size. -/
def sizeKeySeen (ib : List IRow) : Bool :=
  (handle_infobox ib).any (fun kv =>
    MODEL_FEATURE_REVERSE_MAPPING kv.1 == some featCOLLECTION_SIZE)

/-! ## add_features (scraper.py lines 74-94)

The dataframe under mutation: named columns and rows of cells.  A cell
is a string, a number or the float nan.  df.at[i, f] with an existing
column f sets one cell; with a new column it enlarges the frame by one
column whose other cells are nan. -/

inductive PdVal
  | s (v : List Char)
  | q (v : ℚ)
  | nan
deriving DecidableEq

structure PdDF where
  columns : List (List Char)
  rows : List (List PdVal)
deriving DecidableEq

/-- Every row is as wide as the column list. -/
def Aligned (df : PdDF) : Prop := ∀ r ∈ df.rows, r.length = df.columns.length

/-- Cell read: none when the column does not exist. -/
def getCell (df : PdDF) (i : ℕ) (c : List Char) : Option PdVal :=
  match df.columns.findIdx? (fun x => x == c) with
  | some j => some ((df.rows.getD i []).getD j .nan)
  | none => none

/-- df.at[i, c] = v for i below the row count: set the cell when the
column exists, otherwise append the column (nan elsewhere) and set it. -/
def setAt (df : PdDF) (i : ℕ) (c : List Char) (v : PdVal) : PdDF :=
  match df.columns.findIdx? (fun x => x == c) with
  | some j => { df with rows := df.rows.set i ((df.rows.getD i []).set j v) }
  | none =>
    let n := df.columns.length
    let rows2 := df.rows.map (fun r => r ++ [PdVal.nan])
    { columns := df.columns ++ [c],
      rows := rows2.set i ((rows2.getD i []).set n v) }

/-- The nan-or-number cell written for collection_size. -/
def sizeToVal : Option ℚ → PdVal
  | some v => .q v
  | none => .nan

/-- The add_features loop: the generator pairs in order; the break on
i ≥ len(df); per pair, the per-feature writes in the MODEL_FEATURES
iteration order type, collection_size, with the features.get defaults;
an exception from the feature fetch aborts. -/
def afLoop (fetch : List Char → Option (List IRow)) :
    List (ℕ × List Char) → PdDF → Except Unit PdDF
  | [], df => .ok df
  | (i, url) :: rest, df =>
    if df.rows.length ≤ i then .ok df
    else
      match get_museum_features (fetch url) with
      | .error e => .error e
      | .ok fd =>
        afLoop fetch rest
          (setAt (setAt df i featTYPE (PdVal.s (featureType fd)))
            i featCOLLECTION_SIZE (sizeToVal (featureSize fd)))

/-- Model of add_features; fetch maps a detail URL to its page. -/
def add_features (fetch : List Char → Option (List IRow)) (df : PdDF)
    (table : List TRow) : Except Unit PdDF :=
  afLoop fetch (museum_wiki_link_generator table) df

/-! ## get_museum_data (scraper.py lines 33-56)

The persisted store: a CSV value is its records, each a list of
fields.  df.to_csv writes a header whose first field is empty (the
unnamed index) and prefixes each data record with the row position;
pd.read_csv renames an empty header field at position k to the literal
text Unnamed-colon-space-k.  pandas dtype inference on read-back is
not modelled: fields stay textual.  The pipeline argument stands for
generate_museum_dataset(); the state holds the cache file content, and
file existence is cache presence. -/

structure Frame where
  columns : List (List Char)
  rows : List (List (List Char))
deriving DecidableEq

/-- df.to_csv: header with the empty index-column name, then each row
prefixed with its positional index. -/
def to_csv (df : Frame) : List (List (List Char)) :=
  ([] :: df.columns) :: df.rows.enum.map (fun p => Nat.toDigits 10 p.1 :: p.2)

/-- pd.read_csv repair of one header field: an empty name at position
k becomes Unnamed-colon-space-k. -/
def renameField (p : ℕ × List Char) : List Char :=
  if p.2.isEmpty then chars (r"Unnamed: ") ++ Nat.toDigits 10 p.1 else p.2

/-- pd.read_csv header repair applied across the header. -/
def renameHeader (hdr : List (List Char)) : List (List Char) :=
  hdr.enum.map renameField

/-- pd.read_csv of a stored CSV value. -/
def read_csv (f : List (List (List Char))) : Frame :=
  match f with
  | [] => ⟨[], []⟩
  | hdr :: rows => ⟨renameHeader hdr, rows⟩

structure FileState where
  cache : Option (List (List (List Char)))
deriving DecidableEq

/-- Model of get_museum_data: serve the parsed cache when the file
exists and regenerate is false; otherwise run the pipeline, and only
on success write the cache. -/
def get_museum_data (pipeline : Except Unit Frame) (regenerate : Bool)
    (st : FileState) : Except Unit Frame × FileState :=
  if st.cache.isSome && !regenerate then
    (.ok (read_csv (st.cache.getD [])), st)
  else
    match pipeline with
    | .error e => (.error e, st)
    | .ok df => (.ok df, ⟨some (to_csv df)⟩)

/-! ## Concrete inputs used by counterexamples and witnesses -/

/-- A header-like row with no cells. -/
def hdrRow : TRow := ⟨[]⟩

/-- A data row with two td cells and no anchor anywhere. -/
def rowNoLink : TRow := ⟨[⟨[]⟩, ⟨[]⟩]⟩

/-- A data row with two td cells whose first cell links to a detail
page. -/
def rowWithLink : TRow := ⟨[⟨[⟨some (chars (r"/wiki/Louvre"))⟩]⟩, ⟨[]⟩]⟩

/-- A table whose first non-header row lacks a link: the generator
skips it, so the counter and the raw positional index diverge. -/
def exTable : List TRow := [hdrRow, rowNoLink, rowWithLink]

/-- The canonical column set persisted by the pipeline. -/
def canonCols : List (List Char) :=
  [chars (r"name"), chars (r"type"), chars (r"collection_size"),
   chars (r"visitors"), chars (r"city"), chars (r"country")]

/-- A canonical-schema frame as persisted by a prior generation run. -/
def canonFrame : Frame :=
  ⟨canonCols,
   [[chars (r"Louvre"), chars (r"Art"), chars (r"615797"),
     chars (r"8700000"), chars (r"Paris"), chars (r"France")]]⟩

/-- A state whose cache file holds the persisted canonical frame. -/
def cachedState : FileState := ⟨some (to_csv canonFrame)⟩

/-- A table whose non-header rows all carry a valid link. -/
def exTable2 : List TRow := [hdrRow, rowWithLink]

/-- A raw-parse dataframe with one column and three rows, the shape
add_features receives (no feature columns yet). -/
def exDf : PdDF :=
  ⟨[chars (r"Name")],
   [[.s (chars (r"A"))], [.s (chars (r"B"))], [.s (chars (r"C"))]]⟩

/-- A fetch in which every detail page lacks an infobox. -/
def exFetch : List Char → Option (List IRow) := fun _ => none

/-- The frame add_features produces from exDf and exTable with exFetch:
only row 0 is yielded, so only its feature cells carry the defaults;
rows 1 and 2 get the enlargement nan, never the defaults. -/
def exOut : PdDF :=
  ⟨[chars (r"Name"), featTYPE, featCOLLECTION_SIZE],
   [[.s (chars (r"A")), .s (chars (r"N/A")), .nan],
    [.s (chars (r"B")), .nan, .nan],
    [.s (chars (r"C")), .nan, .nan]]⟩

/-! ## Helper lemmas -/

theorem beq_false_of_pred {p : Char → Bool} {c d : Char} (hc : p c = true)
    (hd : p d = false) : (c == d) = false := by
  rw [beq_eq_false_iff_ne]
  intro h
  subst h
  rw [hc] at hd
  cases hd

theorem ne_of_pred {p : Char → Bool} {c d : Char} (hc : p c = true)
    (hd : p d = false) : ¬(c = d) := by
  intro h
  subst h
  rw [hc] at hd
  cases hd

theorem splitCommaWsOnce_ne_nil (s : List Char) : splitCommaWsOnce s ≠ [] := by
  induction s with
  | nil => simp [splitCommaWsOnce]
  | cons c rest ih =>
    simp only [splitCommaWsOnce]
    split
    · simp
    · rcases h : splitCommaWsOnce rest with _ | ⟨p, q⟩ <;> simp [h]

theorem extract_eq_takeWhile (s : List Char) :
    extract_first_city_part s = s.takeWhile (fun c => !(c == ',')) := by
  induction s with
  | nil => rfl
  | cons c rest ih =>
    unfold extract_first_city_part at ih ⊢
    cases hc : (c == ',') with
    | true =>
      simp [splitCommaWsOnce, hc, List.takeWhile_cons]
    | false =>
      rcases h : splitCommaWsOnce rest with _ | ⟨p, q⟩
      · exact absurd h (splitCommaWsOnce_ne_nil rest)
      · simp only [splitCommaWsOnce, hc, Bool.false_eq_true, if_false, h,
          List.headD_cons, List.takeWhile_cons, Bool.not_false, if_true]
        rw [h] at ih
        simp only [List.headD_cons] at ih
        rw [ih]

/-- C4, corrected form.  extract_first_city_part keeps the prefix
before the first comma (the regex separator is a comma followed by an
optional whitespace run, so the bare comma alone delimits the first
piece); a string with no comma is unchanged, and the empty string maps
to the empty string. -/
theorem claim4_city_amended (s : List Char) :
    extract_first_city_part s = s.takeWhile (fun c => !(c == ',')) ∧
    ((∀ c ∈ s, ¬(c = ',')) → extract_first_city_part s = s) ∧
    extract_first_city_part [] = [] := by
  refine ⟨extract_eq_takeWhile s, ?_, rfl⟩
  intro h
  rw [extract_eq_takeWhile s, List.takeWhile_eq_self_iff]
  intro c hcs
  simp [h c hcs]

/-- Witness for the amended C4 at a concrete no-comma city. -/
theorem claim4_witness :
    extract_first_city_part (chars (r"Montreal")) = chars (r"Montreal") :=
  (claim4_city_amended (chars (r"Montreal"))).2.1 (by decide)

/-- C4 counterexample: the code splits at the first bare comma, not at
the first occurrence of the two-character separator comma-space, so on
a cell holding a bare comma before a comma-space the two disagree. -/
theorem claim4_counterexample :
    extract_first_city_part (chars (r"A,B, C")) = chars (r"A") ∧
    beforeCommaSpace (chars (r"A,B, C")) = chars (r"A,B") ∧
    extract_first_city_part (chars (r"A,B, C")) ≠
      beforeCommaSpace (chars (r"A,B, C")) := by
  decide

/-- C5: clean_collection_size is not total: on a value whose leading
numeric token holds no digit (here a bare comma), float("") raises
ValueError and the call aborts instead of returning the missing
marker. -/
theorem claim5_clean_size_raises :
    clean_collection_size (chars (r", items")) = .error () := by
  rfl

/-- C9: when the pipeline raises, get_museum_data propagates the error
and does not touch the stored cache; with a cache present and the
regenerate flag off, the stored content is what is served, whatever
the pipeline would do. -/
theorem claim9_error_preserves_cache (st : FileState) :
    (∀ e, get_museum_data (.error e) true st = (.error e, st)) ∧
    (st.cache = none → ∀ e, get_museum_data (.error e) false st = (.error e, st)) ∧
    (∀ c, st.cache = some c → ∀ p, get_museum_data p false st = (.ok (read_csv c), st)) := by
  refine ⟨?_, ?_, ?_⟩
  · intro e
    simp [get_museum_data]
  · intro h e
    simp [get_museum_data, h]
  · intro c h p
    simp [get_museum_data, h]

/-- Witness for C9 at a concrete cached state. -/
theorem claim9_witness :
    get_museum_data (.error ()) false cachedState =
      (.ok (read_csv (to_csv canonFrame)), cachedState) :=
  (claim9_error_preserves_cache cachedState).2.2 (to_csv canonFrame) rfl (.error ())

/-- C3 counterexample: a cache hit on a persisted canonical frame does
not return the canonical columns and no others: the round trip through
the index-writing to_csv and the header-repairing read_csv prepends an
unnamed index column. -/
theorem claim3_counterexample :
    (get_museum_data (.error ()) false cachedState).1 =
      .ok ⟨chars (r"Unnamed: 0") :: canonCols,
        [chars (r"0") :: [chars (r"Louvre"), chars (r"Art"), chars (r"615797"),
          chars (r"8700000"), chars (r"Paris"), chars (r"France")]]⟩ ∧
    chars (r"Unnamed: 0") :: canonCols ≠ canonCols := by
  exact ⟨rfl, by decide⟩

theorem renameFrom (l : List (List Char)) :
    ∀ n, (∀ c ∈ l, c ≠ []) → (List.enumFrom n l).map renameField = l := by
  induction l with
  | nil => intro n _; rfl
  | cons c rest ih =>
    intro n h
    rw [List.enumFrom_cons, List.map_cons, ih (n + 1) (fun x hx => h x (by simp [hx]))]
    have hc : c.isEmpty = false := by
      simp [List.isEmpty_eq_false]
      exact h c (by simp)
    simp [renameField, hc]

/-- C3, corrected form.  A cache hit serves the parsed stored file and
runs no part of the pipeline (the pipeline argument is irrelevant and
the state is untouched), but the schema read back is the persisted
canonical columns PLUS a leading unnamed index column, and every data
row is prefixed with its stored positional index. -/
theorem claim3_cache_amended (p : Except Unit Frame) (df : Frame) (st : FileState)
    (hc : st.cache = some (to_csv df)) (hcols : ∀ c ∈ df.columns, c ≠ []) :
    get_museum_data p false st = (.ok (read_csv (to_csv df)), st) ∧
    (read_csv (to_csv df)).columns = chars (r"Unnamed: 0") :: df.columns ∧
    (read_csv (to_csv df)).rows =
      df.rows.enum.map (fun q => Nat.toDigits 10 q.1 :: q.2) := by
  refine ⟨?_, ?_, rfl⟩
  · simp [get_museum_data, hc]
  · show renameHeader ([] :: df.columns) = _
    unfold renameHeader
    rw [show List.enum ([] :: df.columns) =
      (0, ([] : List Char)) :: List.enumFrom 1 df.columns from rfl]
    rw [List.map_cons, renameFrom _ 1 hcols]
    rfl

/-- Witness for the amended C3 at the concrete cached canonical frame. -/
theorem claim3_witness :
    (read_csv (to_csv canonFrame)).columns =
      chars (r"Unnamed: 0") :: canonFrame.columns :=
  (claim3_cache_amended (.error ()) canonFrame cachedState rfl (by decide)).2.1

/-- C2 counterexample: in a table whose first non-header row lacks a
link, the generator pairs index 0 with the URL of the second non-header
row, while the raw-table parse assigns that row position 1; the row at
raw position 0 has no link at all, so the pairing cannot be read back
positionally. -/
theorem claim2_counterexample :
    ¬ (∀ p ∈ museum_wiki_link_generator exTable,
      (rowHref ((rawRows exTable).getD p.1 hdrRow)).map (fun h => wikiBase ++ h) =
        some p.2) := by
  decide

theorem linkGenAux_spec (rows : List TRow) : ∀ i,
    (linkGenAux i rows).map Prod.fst =
      (List.range (rows.filterMap rowHref).length).map (fun k => k + i) ∧
    (linkGenAux i rows).map Prod.snd =
      (rows.filterMap rowHref).map (fun h => wikiBase ++ h) := by
  induction rows with
  | nil => intro i; simp [linkGenAux]
  | cons r rest ih =>
    intro i
    cases h : rowHref r with
    | none =>
      obtain ⟨ih1, ih2⟩ := ih i
      simp [linkGenAux, h, List.filterMap_cons, ih1, ih2]
    | some hr =>
      obtain ⟨ih1, ih2⟩ := ih (i + 1)
      refine ⟨?_, ?_⟩
      · simp only [linkGenAux, h, List.filterMap_cons, List.map_cons, ih1,
          List.length_cons, List.range_succ_eq_map, List.map_map, Nat.zero_add]
        refine congrArg (i :: ·) (List.map_congr_left ?_)
        intro k _
        simp [Function.comp]
        omega
      · simp [linkGenAux, h, List.filterMap_cons, ih2]

/-- C7: for every table, the generator yields exactly one pair per
valid non-header row (more than one td cell, first cell with a first
anchor holding a nonempty href), in row order, with indices 0..N-1 and
the absolute URL of each valid row; a table with zero valid rows
yields the empty sequence. -/
theorem claim7_link_generator (table : List TRow) :
    (museum_wiki_link_generator table).map Prod.fst =
      List.range ((rawRows table).filterMap rowHref).length ∧
    (museum_wiki_link_generator table).map Prod.snd =
      ((rawRows table).filterMap rowHref).map (fun h => wikiBase ++ h) ∧
    (museum_wiki_link_generator table).length =
      ((rawRows table).filterMap rowHref).length ∧
    ((rawRows table).filterMap rowHref = [] →
      museum_wiki_link_generator table = []) := by
  obtain ⟨h1, h2⟩ := linkGenAux_spec (table.drop 1) 0
  have hfst : (museum_wiki_link_generator table).map Prod.fst =
      List.range ((rawRows table).filterMap rowHref).length := by
    rw [show museum_wiki_link_generator table = linkGenAux 0 (table.drop 1) from rfl, h1]
    simp [rawRows]
  refine ⟨hfst, h2, ?_, ?_⟩
  · calc (museum_wiki_link_generator table).length
        = ((museum_wiki_link_generator table).map Prod.fst).length :=
          (List.length_map _ _).symm
      _ = ((rawRows table).filterMap rowHref).length := by rw [hfst]; simp
  · intro hv
    have : (museum_wiki_link_generator table).map Prod.fst = [] := by
      rw [hfst, hv]
      simp
    simpa using this

/-- Witness for C7 at a concrete linkless table. -/
theorem claim7_witness :
    museum_wiki_link_generator [hdrRow, rowNoLink] = [] :=
  (claim7_link_generator [hdrRow, rowNoLink]).2.2.2 (by decide)

theorem linkGenAux_all_valid (rows : List TRow) : ∀ i,
    (∀ r ∈ rows, (rowHref r).isSome) →
    ∀ p ∈ linkGenAux i rows, i ≤ p.1 ∧
      (rowHref (rows.getD (p.1 - i) hdrRow)).map (fun hr => wikiBase ++ hr) =
        some p.2 := by
  induction rows with
  | nil =>
    intro i _ p hp
    simp [linkGenAux] at hp
  | cons r rest ih =>
    intro i h p hp
    obtain ⟨v, hv⟩ := Option.isSome_iff_exists.mp (h r (by simp))
    simp only [linkGenAux, hv, List.mem_cons] at hp
    rcases hp with hp | hp
    · subst hp
      simp [hv]
    · obtain ⟨h1, h2⟩ := ih (i + 1) (fun x hx => h x (by simp [hx])) p hp
      refine ⟨by omega, ?_⟩
      have hs : p.1 - i = (p.1 - (i + 1)) + 1 := by omega
      rw [hs]
      simpa using h2

/-- C2, corrected form.  The index the generator pairs with a URL is
the rank of that row among the valid rows, so it equals the positional
index of the raw-table parse exactly when no preceding non-header row
is skipped; in particular, when every non-header row carries a valid
link, each pair reads back positionally. -/
theorem claim2_alignment_amended (table : List TRow)
    (h : ∀ r ∈ rawRows table, (rowHref r).isSome) :
    ∀ p ∈ museum_wiki_link_generator table,
      (rowHref ((rawRows table).getD p.1 hdrRow)).map (fun hr => wikiBase ++ hr) =
        some p.2 := by
  intro p hp
  have hx := linkGenAux_all_valid (table.drop 1) 0 h p hp
  simpa [rawRows] using hx.2

/-- Witness for the amended C2 at a concrete all-valid table. -/
theorem claim2_witness :
    (rowHref ((rawRows exTable2).getD 0 hdrRow)).map (fun hr => wikiBase ++ hr) =
      some (wikiBase ++ chars (r"/wiki/Louvre")) :=
  claim2_alignment_amended exTable2 (by decide)
    (0, wikiBase ++ chars (r"/wiki/Louvre")) (by decide)

theorem millionSearch_isSome_iff (s : List Char) :
    (millionSearch s).isSome ↔ ∃ j, (millionMatchAt (s.drop j)).isSome := by
  induction s with
  | nil =>
    simp [millionSearch, millionMatchAt]
  | cons c rest ih =>
    cases h : millionMatchAt (c :: rest) with
    | some g =>
      simp only [millionSearch, h]
      constructor
      · intro _
        exact ⟨0, by simp [h]⟩
      · intro _
        simp
    | none =>
      simp only [millionSearch, h]
      constructor
      · intro hx
        obtain ⟨j, hj⟩ := ih.mp hx
        exact ⟨j + 1, by simpa using hj⟩
      · rintro ⟨j, hj⟩
        cases j with
        | zero =>
          rw [List.drop_zero, h] at hj
          simp at hj
        | succ j =>
          exact ih.mpr ⟨j, by simpa using hj⟩

/-- C1, corrected form.  convert_million_values converts a cell exactly
when the number-then-million pattern matches SOMEWHERE in the cell
(re.search, characterized by the existence of a successful match
attempt at some position), not only on full-cell matches; a converted
cell is replaced by the comma-grouped truncated numerator times one
million of the leftmost match, and a cell with no match anywhere is
passed through byte-for-byte. -/
theorem claim1_convert_amended (col out : List (List Char))
    (h : convert_million_values col = .ok out) :
    out.length = col.length ∧
    (∀ i, i < col.length →
      (millionSearch (col.getD i []) = none → out.getD i [] = col.getD i []) ∧
      (∀ g, millionSearch (col.getD i []) = some g →
        out.getD i [] = commaGroup (millionCellValue g))) ∧
    (∀ s : List Char, (millionSearch s).isSome ↔
      ∃ j, (millionMatchAt (s.drop j)).isSome) := by
  have hout : out = col.map (fun s =>
      match millionSearch s with
      | none => s
      | some g => commaGroup (millionCellValue g)) := by
    unfold convert_million_values at h
    split at h
    · cases h
    · exact (Except.ok.inj h).symm
  subst hout
  refine ⟨List.length_map _ _, ?_, millionSearch_isSome_iff⟩
  intro i hi
  have hg : (col.map (fun s =>
      match millionSearch s with
      | none => s
      | some g => commaGroup (millionCellValue g))).getD i [] =
      (fun s =>
        match millionSearch s with
        | none => s
        | some g => commaGroup (millionCellValue g)) (col.getD i []) := by
    rw [List.getD_eq_getElem _ _ (by simpa using hi), List.getElem_map,
      List.getD_eq_getElem _ _ hi]
  constructor
  · intro hn
    rw [hg]
    simp only [hn]
  · intro g hgg
    rw [hg]
    simp only [hgg]

/-- Witness for the amended C1 at a concrete substring-matching cell. -/
theorem claim1_witness :
    [chars (r"4,300,000")].getD 0 [] = commaGroup (millionCellValue (chars (r"4.3"))) :=
  ((claim1_convert_amended [chars (r"Over 4.3 million people")]
    [chars (r"4,300,000")] (by rfl)).2.1 0 (by decide)).2 (chars (r"4.3")) (by rfl)

/-- C1 counterexample: a cell that merely contains the pattern as a
substring, with other text before and after, is not a full-pattern
match yet is rewritten by the code. -/
theorem claim1_counterexample :
    isFullMillionMatch (chars (r"Over 4.3 million people")) = false ∧
    convert_million_values [chars (r"Over 4.3 million people")] =
      .ok [chars (r"4,300,000")] ∧
    chars (r"4,300,000") ≠ chars (r"Over 4.3 million people") := by
  exact ⟨rfl, rfl, by decide⟩

theorem mapping_cases {k f : List Char}
    (h : MODEL_FEATURE_REVERSE_MAPPING k = some f) :
    f = featTYPE ∨ f = featCOLLECTION_SIZE := by
  unfold MODEL_FEATURE_REVERSE_MAPPING at h
  split_ifs at h <;> simp_all

theorem buildFeatures_ftype_stable :
    ∀ (kvs : List (List Char × List Char)) (d d2 : FeatureDict),
    (∀ kv ∈ kvs, MODEL_FEATURE_REVERSE_MAPPING kv.1 ≠ some featTYPE) →
    buildFeatures kvs d = .ok d2 → d2.ftype = d.ftype := by
  intro kvs
  induction kvs with
  | nil =>
    intro d d2 _ h
    rw [(Except.ok.inj h : d = d2).symm]
  | cons kv rest ih =>
    intro d d2 hall h
    obtain ⟨k, v⟩ := kv
    simp only [buildFeatures] at h
    cases hm : MODEL_FEATURE_REVERSE_MAPPING k with
    | none =>
      rw [hm] at h
      exact ih d d2 (fun x hx => hall x (by simp [hx])) h
    | some f =>
      rw [hm] at h
      have hf : (f == featTYPE) = false := by
        rw [beq_eq_false_iff_ne]
        intro he
        subst he
        exact hall (k, v) (by simp) hm
      simp only [hf, Bool.false_eq_true, if_false] at h
      cases hc : clean_collection_size v with
      | error e =>
        rw [hc] at h
        cases h
      | ok q =>
        rw [hc] at h
        exact ih { d with fsize := some q } d2 (fun x hx => hall x (by simp [hx])) h

theorem buildFeatures_fsize_stable :
    ∀ (kvs : List (List Char × List Char)) (d : FeatureDict),
    (∀ kv ∈ kvs, MODEL_FEATURE_REVERSE_MAPPING kv.1 ≠ some featCOLLECTION_SIZE) →
    ∃ d2, buildFeatures kvs d = .ok d2 ∧ d2.fsize = d.fsize := by
  intro kvs
  induction kvs with
  | nil =>
    intro d _
    exact ⟨d, rfl, rfl⟩
  | cons kv rest ih =>
    intro d hall
    obtain ⟨k, v⟩ := kv
    cases hm : MODEL_FEATURE_REVERSE_MAPPING k with
    | none =>
      obtain ⟨d2, h, hs⟩ := ih d (fun x hx => hall x (by simp [hx]))
      refine ⟨d2, ?_, hs⟩
      simp only [buildFeatures, hm]
      exact h
    | some f =>
      have hf : f = featTYPE := by
        rcases mapping_cases hm with hf | hf
        · exact hf
        · exact absurd hm (by rw [hf] at hm ⊢; exact hall (k, v) (by simp))
      subst hf
      obtain ⟨d2, h, hs⟩ := ih { d with ftype := some v }
        (fun x hx => hall x (by simp [hx]))
      refine ⟨d2, ?_, hs⟩
      simp only [buildFeatures, hm, beq_self_eq_true, if_true]
      exact h

/-- C8: each canonical feature whose key is never seen in the infobox
scan carries its declared default in the final record, independently
of the other feature (an unseen collection-size key even guarantees
the scan cannot raise); a page with no infobox at all yields the
record populated entirely with the defaults, the literal text N/A and
the numeric missing marker. -/
theorem claim8_feature_defaults (page : Option (List IRow)) :
    (get_museum_features none = .ok {} ∧
      featureType {} = chars (r"N/A") ∧ featureSize {} = none) ∧
    (∀ ib d, page = some ib → typeKeySeen ib = false →
      get_museum_features page = .ok d → featureType d = chars (r"N/A")) ∧
    (∀ ib, page = some ib → sizeKeySeen ib = false →
      ∃ d, get_museum_features page = .ok d ∧ featureSize d = none) := by
  refine ⟨⟨rfl, rfl, rfl⟩, ?_, ?_⟩
  · intro ib d hpage hseen h
    subst hpage
    have hall : ∀ kv ∈ handle_infobox ib,
        MODEL_FEATURE_REVERSE_MAPPING kv.1 ≠ some featTYPE := by
      intro kv hkv
      simp only [typeKeySeen, List.any_eq_false, beq_iff_eq] at hseen
      exact hseen kv hkv
    have hst := buildFeatures_ftype_stable (handle_infobox ib) {} d hall h
    simp [featureType, hst]
  · intro ib hpage hseen
    subst hpage
    have hall : ∀ kv ∈ handle_infobox ib,
        MODEL_FEATURE_REVERSE_MAPPING kv.1 ≠ some featCOLLECTION_SIZE := by
      intro kv hkv
      simp only [sizeKeySeen, List.any_eq_false, beq_iff_eq] at hseen
      exact hseen kv hkv
    obtain ⟨d2, h, hs⟩ := buildFeatures_fsize_stable (handle_infobox ib) {} hall
    exact ⟨d2, h, by simp [featureSize, hs]⟩

/-- Witness for C8 at a concrete page whose only infobox key is
unrecognized. -/
theorem claim8_witness :
    featureType {} = chars (r"N/A") :=
  (claim8_feature_defaults
    (some [⟨[chars (r"location"), chars (r"London")]⟩])).2.1
    [⟨[chars (r"location"), chars (r"London")]⟩] {} rfl (by rfl) (by rfl)

theorem numdot_of_digit {c : Char} (h : isDigitCh c = true) : isNumDotCh c = true := by
  simp [isNumDotCh, h]

theorem space_false_of_numdot {c : Char} (h : isNumDotCh c = true) :
    isSpaceCh c = false := by
  rw [Bool.eq_false_iff]
  intro hx
  simp only [isNumDotCh, isDigitCh, Bool.or_eq_true, Bool.and_eq_true,
    decide_eq_true_eq, beq_iff_eq] at h
  simp only [isSpaceCh, Bool.or_eq_true, beq_iff_eq] at hx
  omega

theorem numdot_false_of_space {c : Char} (h : isSpaceCh c = true) :
    isNumDotCh c = false := by
  rw [Bool.eq_false_iff]
  intro hx
  simp only [isNumDotCh, isDigitCh, Bool.or_eq_true, Bool.and_eq_true,
    decide_eq_true_eq, beq_iff_eq] at hx
  simp only [isSpaceCh, Bool.or_eq_true, beq_iff_eq] at h
  omega

theorem space_false_of_alpha {c : Char} (h : isAlphaCh c = true) :
    isSpaceCh c = false := by
  rw [Bool.eq_false_iff]
  intro hx
  simp only [isAlphaCh, Bool.or_eq_true, Bool.and_eq_true, decide_eq_true_eq] at h
  simp only [isSpaceCh, Bool.or_eq_true, beq_iff_eq] at hx
  omega

theorem notApprox_of_pred {p : Char → Bool} {c : Char} (hc : p c = true)
    (h1 : p '≈' = false) (h2 : p '~' = false) :
    (!(c == '≈') && !(c == '~')) = true := by
  rw [beq_false_of_pred hc h1, beq_false_of_pred hc h2]
  rfl

theorem headD_prop {p : Char → Bool} {m : List Char} (x : Char)
    (hall : ∀ c ∈ m, p c = true) (h : m ≠ []) : p (m.headD x) = true := by
  obtain ⟨c, t, rfl⟩ := List.exists_cons_of_ne_nil h
  exact hall c (by simp)

theorem getLastD_prop {p : Char → Bool} {m : List Char} (x : Char)
    (hall : ∀ c ∈ m, p c = true) (h : m ≠ []) : p (m.getLastD x) = true := by
  obtain ⟨c, t, rfl⟩ := List.exists_cons_of_ne_nil h
  rw [List.getLastD_cons]
  exact hall _ (List.getLastD_mem_cons t c)

theorem headD_append_left {a : List Char} (b : List Char) (x : Char) (h : a ≠ []) :
    (a ++ b).headD x = a.headD x := by
  obtain ⟨c, t, rfl⟩ := List.exists_cons_of_ne_nil h
  rfl

theorem getLastD_append_right (a : List Char) {b : List Char} (x : Char) (h : b ≠ []) :
    (a ++ b).getLastD x = b.getLastD x := by
  obtain ⟨c, t, hct⟩ := List.exists_cons_of_ne_nil
    (show b.reverse ≠ [] from by simpa using h)
  rw [List.getLastD_eq_getLast? x (a ++ b), List.getLastD_eq_getLast? x b,
    ← List.head?_reverse, ← List.head?_reverse, List.reverse_append, hct]
  rfl

theorem rcCite_no_bracket {a : List Char} (h : ∀ c ∈ a, ¬(c = '[')) (b : List Char) :
    rcCite (a ++ b) none = a ++ rcCite b none := by
  induction a with
  | nil => rfl
  | cons c t ih =>
    have hc : (c == '[') = false := by
      rw [beq_eq_false_iff_ne]
      exact h c (by simp)
    simp only [List.cons_append, rcCite, hc, Bool.false_eq_true, if_false]
    exact congrArg (c :: ·) (ih (fun x hx => h x (by simp [hx])))

theorem rcCite_self {a : List Char} (h : ∀ c ∈ a, ¬(c = '[')) : rcCite a none = a := by
  have hx := rcCite_no_bracket h []
  simpa [rcCite] using hx

theorem rcCite_digits {rest : List Char} : ∀ (ds buf : List Char),
    (∀ c ∈ ds, isDigitCh c = true) → (ds ≠ [] ∨ buf ≠ []) →
    rcCite (ds ++ ']' :: rest) (some buf) = rcCite rest none := by
  intro ds
  induction ds with
  | nil =>
    intro buf _ hne
    have hb : buf ≠ [] := by
      rcases hne with hne | hne
      · exact absurd rfl hne
      · exact hne
    have hb2 : buf.isEmpty = false := List.isEmpty_eq_false.mpr hb
    simp [rcCite, hb2, show isDigitCh ']' = false from rfl]
  | cons d t ih =>
    intro buf hd _
    have hdd : isDigitCh d = true := hd d (by simp)
    simp only [List.cons_append, rcCite, hdd, if_true]
    exact ih (d :: buf) (fun c hc => hd c (by simp [hc])) (Or.inr (by simp))

theorem rcCite_citation {ds rest : List Char} (h1 : ds ≠ [])
    (h2 : ∀ c ∈ ds, isDigitCh c = true) :
    rcCite ('[' :: (ds ++ ']' :: rest)) none = rcCite rest none := by
  have : rcCite ('[' :: (ds ++ ']' :: rest)) none =
      rcCite (ds ++ ']' :: rest) (some []) := by
    simp [rcCite]
  rw [this]
  exact rcCite_digits ds [] h2 (Or.inl h1)

theorem stripChars_sandwich (ws1 : List Char) {m : List Char} (ws2 : List Char)
    (hne : m ≠ [])
    (h1 : ∀ c ∈ ws1, isSpaceCh c = true) (h2 : ∀ c ∈ ws2, isSpaceCh c = true)
    (hh : isSpaceCh (m.headD ' ') = false)
    (hl : isSpaceCh (m.getLastD ' ') = false) :
    stripChars (ws1 ++ (m ++ ws2)) = m := by
  obtain ⟨c, t, rfl⟩ := List.exists_cons_of_ne_nil hne
  have hc : isSpaceCh c = false := by simpa using hh
  unfold stripChars
  rw [List.dropWhile_append_of_pos h1]
  rw [show (c :: t) ++ ws2 = c :: (t ++ ws2) from rfl]
  rw [List.dropWhile_cons_of_neg (by simp [hc])]
  rw [show c :: (t ++ ws2) = (c :: t) ++ ws2 from rfl]
  rw [List.reverse_append]
  rw [List.dropWhile_append_of_pos (fun x hx => h2 x (by simpa using hx))]
  obtain ⟨d, r, hdr⟩ := List.exists_cons_of_ne_nil
    (show (c :: t).reverse ≠ [] from by simp)
  have hd : d = (c :: t).getLastD ' ' := by
    have hx := List.head?_reverse (c :: t)
    rw [hdr] at hx
    rw [List.getLastD_eq_getLast?, ← hx]
    rfl
  have hdns : isSpaceCh d = false := by
    rw [hd]
    exact hl
  rw [hdr, List.dropWhile_cons_of_neg (by simp [hdns]), ← hdr, List.reverse_reverse]

theorem filter_comma_flatten (p : Char → Bool) (hp : p ',' = false) :
    ∀ gs : List (List Char), (∀ g ∈ gs, ∀ c ∈ g, p c = true) →
    ((gs.map (fun g => ',' :: g)).flatten).filter p = gs.flatten := by
  intro gs
  induction gs with
  | nil => intro _; rfl
  | cons g rest ih =>
    intro h
    simp only [List.map_cons, List.flatten_cons, List.filter_append,
      List.filter_cons, hp, Bool.false_eq_true, if_false]
    rw [List.filter_eq_self.mpr (h g (by simp)),
      ih (fun g' hg' => h g' (by simp [hg']))]

theorem digit_ne_comma {c : Char} (h : isDigitCh c = true) : (c == ',') = false :=
  beq_false_of_pred h (by decide)

theorem digit_ne_dot {c : Char} (h : isDigitCh c = true) : (c == '.') = false :=
  beq_false_of_pred h (by decide)

/-- C6: on every well-formed collection-size value made of optional
whitespace, optional approximation glyphs, a numeric token of digits
with comma groups and an optional decimal part, whitespace, a unit
word, and an optional bracketed citation, clean_collection_size
returns the exact parsed numerator, scaled by one million exactly when
the unit word lower-cases to million and unscaled otherwise; a value
with no trailing alphabetic unit, a citation-only value, and the empty
value all yield the missing marker. -/
theorem claim6_clean_size
    (ws1 ws2 sep apx d0 fr uw ds : List Char) (gs : List (List Char))
    (hasFr hasCite : Bool)
    (hws1 : ∀ c ∈ ws1, isSpaceCh c = true)
    (hws2 : ∀ c ∈ ws2, isSpaceCh c = true)
    (hsep0 : sep ≠ []) (hsep : ∀ c ∈ sep, isSpaceCh c = true)
    (hapx : ∀ c ∈ apx, c = '≈' ∨ c = '~')
    (hd00 : d0 ≠ []) (hd0 : ∀ c ∈ d0, isDigitCh c = true)
    (hgs : ∀ g ∈ gs, ∀ c ∈ g, isDigitCh c = true)
    (hfr : ∀ c ∈ fr, isDigitCh c = true)
    (huw0 : uw ≠ []) (huw : ∀ c ∈ uw, isAlphaCh c = true)
    (hds0 : ds ≠ []) (hds : ∀ c ∈ ds, isDigitCh c = true) :
    clean_collection_size
        (ws1 ++ (apx ++ (d0 ++ ((gs.map (fun g => ',' :: g)).flatten ++
          ((if hasFr then '.' :: fr else []) ++ (sep ++ (uw ++
          ((if hasCite then '[' :: (ds ++ [']']) else []) ++ ws2)))))))) =
      .ok (some (if uw.map Char.toLower == chars (r"million")
          then ((digitsVal (d0 ++ (gs.flatten ++ (if hasFr then fr else []))) : ℚ) /
            10 ^ (if hasFr then fr.length else 0)) * 1000000
          else (digitsVal (d0 ++ (gs.flatten ++ (if hasFr then fr else []))) : ℚ) /
            10 ^ (if hasFr then fr.length else 0))) ∧
    clean_collection_size
        (ws1 ++ (apx ++ (d0 ++ ((gs.map (fun g => ',' :: g)).flatten ++
          ((if hasFr then '.' :: fr else []) ++ ws2))))) = .ok none ∧
    clean_collection_size ('[' :: (ds ++ [']'])) = .ok none ∧
    clean_collection_size [] = .ok none := by
  have hJoinDig : ∀ c ∈ gs.flatten, isDigitCh c = true := by
    intro c hc
    rw [List.mem_flatten] at hc
    obtain ⟨l, hl, hcl⟩ := hc
    exact hgs l hl c hcl
  have hJoinNd : ∀ c ∈ (gs.map (fun g => ',' :: g)).flatten, isNumDotCh c = true := by
    intro c hc
    rw [List.mem_flatten] at hc
    obtain ⟨l, hl, hcl⟩ := hc
    rw [List.mem_map] at hl
    obtain ⟨g, hg, rfl⟩ := hl
    rcases List.mem_cons.mp hcl with rfl | hcg
    · decide
    · exact numdot_of_digit (hgs g hg c hcg)
  have hFpNd : ∀ c ∈ (if hasFr then '.' :: fr else []), isNumDotCh c = true := by
    cases hasFr with
    | false => intro c hc; cases hc
    | true =>
      intro c hc
      rcases List.mem_cons.mp hc with rfl | hcf
      · decide
      · exact numdot_of_digit (hfr c hcf)
  have hD0Nd : ∀ c ∈ d0, isNumDotCh c = true := fun c hc => numdot_of_digit (hd0 c hc)
  have hNNd : ∀ c ∈ d0 ++ ((gs.map (fun g => ',' :: g)).flatten ++
      (if hasFr then '.' :: fr else [])), isNumDotCh c = true := by
    intro c hc
    simp only [List.mem_append] at hc
    rcases hc with hc | hc | hc
    · exact hD0Nd c hc
    · exact hJoinNd c hc
    · exact hFpNd c hc
  have hNne : d0 ++ ((gs.map (fun g => ',' :: g)).flatten ++
      (if hasFr then '.' :: fr else [])) ≠ [] :=
    List.append_ne_nil_of_left_ne_nil hd00 _
  have hNoBrWs1 : ∀ c ∈ ws1, ¬(c = '[') :=
    fun c hc => ne_of_pred (hws1 c hc) (by decide)
  have hNoBrWs2 : ∀ c ∈ ws2, ¬(c = '[') :=
    fun c hc => ne_of_pred (hws2 c hc) (by decide)
  have hNoBrSep : ∀ c ∈ sep, ¬(c = '[') :=
    fun c hc => ne_of_pred (hsep c hc) (by decide)
  have hNoBrApx : ∀ c ∈ apx, ¬(c = '[') := by
    intro c hc
    rcases hapx c hc with rfl | rfl <;> decide
  have hNoBrD0 : ∀ c ∈ d0, ¬(c = '[') :=
    fun c hc => ne_of_pred (hD0Nd c hc) (by decide)
  have hNoBrJoin : ∀ c ∈ (gs.map (fun g => ',' :: g)).flatten, ¬(c = '[') :=
    fun c hc => ne_of_pred (hJoinNd c hc) (by decide)
  have hNoBrFp : ∀ c ∈ (if hasFr then '.' :: fr else []), ¬(c = '[') :=
    fun c hc => ne_of_pred (hFpNd c hc) (by decide)
  have hNoBrUw : ∀ c ∈ uw, ¬(c = '[') :=
    fun c hc => ne_of_pred (huw c hc) (by decide)
  have hApprWs1 : ∀ c ∈ ws1, (!(c == '≈') && !(c == '~')) = true :=
    fun c hc => notApprox_of_pred (hws1 c hc) (by decide) (by decide)
  have hApprWs2 : ∀ c ∈ ws2, (!(c == '≈') && !(c == '~')) = true :=
    fun c hc => notApprox_of_pred (hws2 c hc) (by decide) (by decide)
  have hApprSep : ∀ c ∈ sep, (!(c == '≈') && !(c == '~')) = true :=
    fun c hc => notApprox_of_pred (hsep c hc) (by decide) (by decide)
  have hApprD0 : ∀ c ∈ d0, (!(c == '≈') && !(c == '~')) = true :=
    fun c hc => notApprox_of_pred (hD0Nd c hc) (by decide) (by decide)
  have hApprJoin : ∀ c ∈ (gs.map (fun g => ',' :: g)).flatten,
      (!(c == '≈') && !(c == '~')) = true :=
    fun c hc => notApprox_of_pred (hJoinNd c hc) (by decide) (by decide)
  have hApprFp : ∀ c ∈ (if hasFr then '.' :: fr else []),
      (!(c == '≈') && !(c == '~')) = true :=
    fun c hc => notApprox_of_pred (hFpNd c hc) (by decide) (by decide)
  have hApprUw : ∀ c ∈ uw, (!(c == '≈') && !(c == '~')) = true :=
    fun c hc => notApprox_of_pred (huw c hc) (by decide) (by decide)
  have hApxNil : apx.filter (fun c => !(c == '≈') && !(c == '~')) = [] := by
    rw [List.filter_eq_nil_iff]
    intro c hc
    rcases hapx c hc with rfl | rfl <;> decide
  -- the takeWhile, drop, dropWhile and filter computations shared below
  have hq : (d0 ++ ((gs.map (fun g => ',' :: g)).flatten ++
      ((if hasFr then '.' :: fr else []) ++ (sep ++ uw)))).takeWhile isNumDotCh =
      d0 ++ ((gs.map (fun g => ',' :: g)).flatten ++
        (if hasFr then '.' :: fr else [])) := by
    obtain ⟨s0, st, rfl⟩ := List.exists_cons_of_ne_nil hsep0
    rw [List.takeWhile_append_of_pos hD0Nd, List.takeWhile_append_of_pos hJoinNd,
      List.takeWhile_append_of_pos hFpNd]
    rw [show (s0 :: st) ++ uw = s0 :: (st ++ uw) from rfl]
    rw [List.takeWhile_cons_of_neg
      (by simp [numdot_false_of_space (hsep s0 (by simp))])]
    simp
  have hqb : (d0 ++ ((gs.map (fun g => ',' :: g)).flatten ++
      (if hasFr then '.' :: fr else []))).takeWhile isNumDotCh =
      d0 ++ ((gs.map (fun g => ',' :: g)).flatten ++
        (if hasFr then '.' :: fr else [])) :=
    List.takeWhile_eq_self_iff.mpr hNNd
  have hqne : (d0 ++ ((gs.map (fun g => ',' :: g)).flatten ++
      (if hasFr then '.' :: fr else []))).isEmpty = false :=
    List.isEmpty_eq_false.mpr hNne
  have hdw : (sep ++ uw).dropWhile isSpaceCh = uw := by
    obtain ⟨u0, ut, rfl⟩ := List.exists_cons_of_ne_nil huw0
    rw [List.dropWhile_append_of_pos hsep]
    exact List.dropWhile_cons_of_neg
      (by simp [space_false_of_alpha (huw u0 (by simp))])
  have hturw : uw.takeWhile isAlphaCh = uw := List.takeWhile_eq_self_iff.mpr huw
  have huwne : uw.isEmpty = false := List.isEmpty_eq_false.mpr huw0
  have hFpNc : ∀ c ∈ (if hasFr then '.' :: fr else []), (!(c == ',')) = true := by
    cases hasFr with
    | false => intro c hc; cases hc
    | true =>
      intro c hc
      rcases List.mem_cons.mp hc with rfl | hcf
      · decide
      · rw [digit_ne_comma (hfr c hcf)]
        rfl
  have hD0Nc : ∀ c ∈ d0, (!(c == ',')) = true :=
    fun c hc => by rw [digit_ne_comma (hd0 c hc)]; rfl
  have hdigits : (d0 ++ ((gs.map (fun g => ',' :: g)).flatten ++
      (if hasFr then '.' :: fr else []))).filter (fun c => !(c == ',')) =
      d0 ++ (gs.flatten ++ (if hasFr then '.' :: fr else [])) := by
    simp only [List.filter_append]
    rw [List.filter_eq_self.mpr hD0Nc,
      filter_comma_flatten (fun c => !(c == ',')) (by decide) gs
        (fun g hg c hc => by
          show (!(c == ',')) = true
          rw [digit_ne_comma (hgs g hg c hc)]
          rfl),
      List.filter_eq_self.mpr hFpNc]
  have hany : (d0 ++ (gs.flatten ++ (if hasFr then '.' :: fr else []))).any
      isDigitCh = true := by
    obtain ⟨a, t, rfl⟩ := List.exists_cons_of_ne_nil hd00
    rw [List.any_eq_true]
    exact ⟨a, by simp, hd0 a (by simp)⟩
  have hdots : ((d0 ++ (gs.flatten ++ (if hasFr then '.' :: fr else []))).filter
      (fun c => c == '.')).length ≤ 1 := by
    simp only [List.filter_append]
    rw [List.filter_eq_nil_iff.mpr
      (fun c hc => by simp [digit_ne_dot (hd0 c hc)])]
    rw [List.filter_eq_nil_iff.mpr
      (fun c hc => by simp [digit_ne_dot (hJoinDig c hc)])]
    cases hasFr with
    | false => simp
    | true =>
      simp only [if_true, List.filter_cons, beq_self_eq_true, if_pos]
      rw [List.filter_eq_nil_iff.mpr
        (fun c hc => by simp [digit_ne_dot (hfr c hc)])]
      simp
  have hpv : pyFloatValid (d0 ++ (gs.flatten ++
      (if hasFr then '.' :: fr else []))) = true := by
    unfold pyFloatValid
    rw [Bool.and_eq_true]
    exact ⟨hany, by simpa using hdots⟩
  have hmant : mantissa (d0 ++ (gs.flatten ++ (if hasFr then '.' :: fr else []))) =
      digitsVal (d0 ++ (gs.flatten ++ (if hasFr then fr else []))) := by
    unfold mantissa
    congr 1
    simp only [List.filter_append]
    rw [List.filter_eq_self.mpr hd0, List.filter_eq_self.mpr hJoinDig]
    cases hasFr with
    | false => simp
    | true =>
      simp only [if_true, List.filter_cons, show (isDigitCh '.') = false from rfl,
        Bool.false_eq_true, if_false]
      rw [List.filter_eq_self.mpr hfr]
  have hfrlen : fracLen (d0 ++ (gs.flatten ++ (if hasFr then '.' :: fr else []))) =
      (if hasFr then fr.length else 0) := by
    unfold fracLen
    rw [List.dropWhile_append_of_pos
      (fun c hc => by show (!(c == '.')) = true; rw [digit_ne_dot (hd0 c hc)]; rfl)]
    rw [List.dropWhile_append_of_pos
      (fun c hc => by
        show (!(c == '.')) = true
        rw [digit_ne_dot (hJoinDig c hc)]
        rfl)]
    cases hasFr with
    | false => simp
    | true =>
      simp only [if_true]
      rw [List.dropWhile_cons_of_neg (by simp)]
      simp
  have hdv : decimalVal (d0 ++ (gs.flatten ++ (if hasFr then '.' :: fr else []))) =
      (digitsVal (d0 ++ (gs.flatten ++ (if hasFr then fr else []))) : ℚ) /
        10 ^ (if hasFr then fr.length else 0) := by
    unfold decimalVal
    rw [hmant, hfrlen]
  refine ⟨?_, ?_, ?_, ?_⟩
  · -- full value with unit word
    have hTail : rcCite ((if hasCite then '[' :: (ds ++ [']']) else []) ++ ws2)
        none = ws2 := by
      cases hasCite with
      | false => simpa using rcCite_self hNoBrWs2
      | true =>
        rw [if_pos rfl]
        rw [show ('[' :: (ds ++ [']'])) ++ ws2 = '[' :: (ds ++ ']' :: ws2) from
          by simp]
        rw [rcCite_citation hds0 hds]
        exact rcCite_self hNoBrWs2
    have hrc : rcCite (ws1 ++ (apx ++ (d0 ++ ((gs.map (fun g => ',' :: g)).flatten ++
        ((if hasFr then '.' :: fr else []) ++ (sep ++ (uw ++
        ((if hasCite then '[' :: (ds ++ [']']) else []) ++ ws2)))))))) none =
        ws1 ++ (apx ++ (d0 ++ ((gs.map (fun g => ',' :: g)).flatten ++
        ((if hasFr then '.' :: fr else []) ++ (sep ++ (uw ++ ws2)))))) := by
      rw [rcCite_no_bracket hNoBrWs1, rcCite_no_bracket hNoBrApx,
        rcCite_no_bracket hNoBrD0, rcCite_no_bracket hNoBrJoin,
        rcCite_no_bracket hNoBrFp, rcCite_no_bracket hNoBrSep,
        rcCite_no_bracket hNoBrUw, hTail]
    have hfl : (ws1 ++ (apx ++ (d0 ++ ((gs.map (fun g => ',' :: g)).flatten ++
        ((if hasFr then '.' :: fr else []) ++ (sep ++ (uw ++ ws2))))))).filter
        (fun c => !(c == '≈') && !(c == '~')) =
        ws1 ++ (d0 ++ ((gs.map (fun g => ',' :: g)).flatten ++
        ((if hasFr then '.' :: fr else []) ++ (sep ++ (uw ++ ws2))))) := by
      simp only [List.filter_append]
      rw [List.filter_eq_self.mpr hApprWs1, hApxNil,
        List.filter_eq_self.mpr hApprD0, List.filter_eq_self.mpr hApprJoin,
        List.filter_eq_self.mpr hApprFp, List.filter_eq_self.mpr hApprSep,
        List.filter_eq_self.mpr hApprUw, List.filter_eq_self.mpr hApprWs2]
      simp
    have hsub : stripChars (subCiteApprox
        (ws1 ++ (apx ++ (d0 ++ ((gs.map (fun g => ',' :: g)).flatten ++
        ((if hasFr then '.' :: fr else []) ++ (sep ++ (uw ++
        ((if hasCite then '[' :: (ds ++ [']']) else []) ++ ws2))))))))) =
        d0 ++ ((gs.map (fun g => ',' :: g)).flatten ++
          ((if hasFr then '.' :: fr else []) ++ (sep ++ uw))) := by
      unfold subCiteApprox
      rw [hrc, hfl]
      rw [show d0 ++ ((gs.map (fun g => ',' :: g)).flatten ++
          ((if hasFr then '.' :: fr else []) ++ (sep ++ (uw ++ ws2)))) =
          (d0 ++ ((gs.map (fun g => ',' :: g)).flatten ++
          ((if hasFr then '.' :: fr else []) ++ (sep ++ uw)))) ++ ws2 from
          by simp [List.append_assoc]]
      have hMne : d0 ++ ((gs.map (fun g => ',' :: g)).flatten ++
          ((if hasFr then '.' :: fr else []) ++ (sep ++ uw))) ≠ [] :=
        List.append_ne_nil_of_left_ne_nil hd00 _
      refine stripChars_sandwich ws1 ws2 hMne hws1 hws2 ?_ ?_
      · rw [headD_append_left _ ' ' hd00]
        exact space_false_of_numdot (headD_prop ' ' hD0Nd hd00)
      · have e1 : sep ++ uw ≠ [] := List.append_ne_nil_of_right_ne_nil sep huw0
        have e2 : (if hasFr then '.' :: fr else []) ++ (sep ++ uw) ≠ [] :=
          List.append_ne_nil_of_right_ne_nil _ e1
        have e3 : (gs.map (fun g => ',' :: g)).flatten ++
            ((if hasFr then '.' :: fr else []) ++ (sep ++ uw)) ≠ [] :=
          List.append_ne_nil_of_right_ne_nil _ e2
        rw [getLastD_append_right d0 ' ' e3, getLastD_append_right _ ' ' e2,
          getLastD_append_right _ ' ' e1, getLastD_append_right sep ' ' huw0]
        exact space_false_of_alpha (getLastD_prop ' ' huw huw0)
    have hdrop : (d0 ++ ((gs.map (fun g => ',' :: g)).flatten ++
        ((if hasFr then '.' :: fr else []) ++ (sep ++ uw)))).drop
        (d0 ++ ((gs.map (fun g => ',' :: g)).flatten ++
          (if hasFr then '.' :: fr else []))).length = sep ++ uw := by
      rw [show d0 ++ ((gs.map (fun g => ',' :: g)).flatten ++
          ((if hasFr then '.' :: fr else []) ++ (sep ++ uw))) =
          (d0 ++ ((gs.map (fun g => ',' :: g)).flatten ++
          (if hasFr then '.' :: fr else []))) ++ (sep ++ uw) from
          by simp [List.append_assoc]]
      exact List.drop_left _ _
    simp only [clean_collection_size]
    rw [hsub, hq, hqne]
    simp only [Bool.false_eq_true, if_false]
    rw [hdrop, hdw, hturw, huwne]
    simp only [Bool.false_eq_true, if_false]
    rw [hdigits, hpv]
    simp only [if_true]
    rw [hdv]
  · -- numeric token with no trailing alphabetic unit
    have hrc : rcCite (ws1 ++ (apx ++ (d0 ++ ((gs.map (fun g => ',' :: g)).flatten ++
        ((if hasFr then '.' :: fr else []) ++ ws2))))) none =
        ws1 ++ (apx ++ (d0 ++ ((gs.map (fun g => ',' :: g)).flatten ++
        ((if hasFr then '.' :: fr else []) ++ ws2)))) := by
      refine rcCite_self ?_
      intro c hc
      simp only [List.mem_append] at hc
      rcases hc with hc | hc | hc | hc | hc | hc
      · exact hNoBrWs1 c hc
      · exact hNoBrApx c hc
      · exact hNoBrD0 c hc
      · exact hNoBrJoin c hc
      · exact hNoBrFp c hc
      · exact hNoBrWs2 c hc
    have hfl : (ws1 ++ (apx ++ (d0 ++ ((gs.map (fun g => ',' :: g)).flatten ++
        ((if hasFr then '.' :: fr else []) ++ ws2))))).filter
        (fun c => !(c == '≈') && !(c == '~')) =
        ws1 ++ (d0 ++ ((gs.map (fun g => ',' :: g)).flatten ++
        ((if hasFr then '.' :: fr else []) ++ ws2))) := by
      simp only [List.filter_append]
      rw [List.filter_eq_self.mpr hApprWs1, hApxNil,
        List.filter_eq_self.mpr hApprD0, List.filter_eq_self.mpr hApprJoin,
        List.filter_eq_self.mpr hApprFp, List.filter_eq_self.mpr hApprWs2]
      simp
    have hsub : stripChars (subCiteApprox
        (ws1 ++ (apx ++ (d0 ++ ((gs.map (fun g => ',' :: g)).flatten ++
        ((if hasFr then '.' :: fr else []) ++ ws2)))))) =
        d0 ++ ((gs.map (fun g => ',' :: g)).flatten ++
          (if hasFr then '.' :: fr else [])) := by
      unfold subCiteApprox
      rw [hrc, hfl]
      rw [show d0 ++ ((gs.map (fun g => ',' :: g)).flatten ++
          ((if hasFr then '.' :: fr else []) ++ ws2)) =
          (d0 ++ ((gs.map (fun g => ',' :: g)).flatten ++
          (if hasFr then '.' :: fr else []))) ++ ws2 from
          by simp [List.append_assoc]]
      refine stripChars_sandwich ws1 ws2 hNne hws1 hws2 ?_ ?_
      · rw [headD_append_left _ ' ' hd00]
        exact space_false_of_numdot (headD_prop ' ' hD0Nd hd00)
      · exact space_false_of_numdot (getLastD_prop ' ' hNNd hNne)
    simp only [clean_collection_size]
    rw [hsub, hqb, hqne]
    simp only [Bool.false_eq_true, if_false]
    rw [List.drop_length]
    simp
  · -- citation-only value
    have hsub : subCiteApprox ('[' :: (ds ++ [']'])) = [] := by
      unfold subCiteApprox
      rw [show ('[' :: (ds ++ [']'])) = '[' :: (ds ++ ']' :: ([] : List Char))
        from rfl]
      rw [rcCite_citation hds0 hds]
      rfl
    simp [clean_collection_size, hsub, stripChars]
  · rfl

/-- Witness for C6 at a concrete fully-decorated million value. -/
theorem claim6_witness :
    clean_collection_size (chars (r" ≈1,2.3 MILLION[4] ")) = .ok (some 12300000) := by
  have h := (claim6_clean_size [' '] [' '] [' '] ['≈'] ['1'] ['3']
    (chars (r"MILLION")) ['4'] [['2']] true true
    (by decide) (by decide) (by decide) (by decide) (by decide) (by decide)
    (by decide) (by decide) (by decide) (by decide) (by decide) (by decide)
    (by decide)).1
  rw [show chars (r" ≈1,2.3 MILLION[4] ") =
    [' '] ++ (['≈'] ++ (['1'] ++ (([['2']].map (fun g => ',' :: g)).flatten ++
    ((if (true : Bool) then '.' :: ['3'] else []) ++ ([' '] ++ ((chars (r"MILLION")) ++
    ((if (true : Bool) then '[' :: (['4'] ++ [']']) else []) ++ [' '])))))))
    from rfl]
  rw [h]
  rw [show ((chars (r"MILLION")).map Char.toLower == chars (r"million")) = true
    from by decide]
  rw [if_pos rfl]
  rw [show digitsVal (['1'] ++ ([['2']].flatten ++
    (if (true : Bool) then ['3'] else []))) = 123 from by decide]
  norm_num

theorem findIdx?_col_none {cols : List (List Char)} {c : List Char}
    (hc : c ∉ cols) : cols.findIdx? (fun x => x == c) = none :=
  List.findIdx?_eq_none_iff.mpr (fun x hx => by
    rw [beq_eq_false_iff_ne]
    intro he
    subst he
    exact hc hx)

theorem findIdx?_col_some {cols : List (List Char)} {c : List Char} {j : ℕ}
    (h : cols.findIdx? (fun x => x == c) = some j) :
    j < cols.length ∧ cols.getD j [] = c := by
  obtain ⟨hj, hp, _⟩ := List.findIdx?_eq_some_iff_getElem.mp h
  refine ⟨hj, ?_⟩
  rw [List.getD_eq_getElem _ _ hj]
  exact beq_iff_eq.mp hp

theorem findIdx?_col_ne_of_ne {cols : List (List Char)} {c c' : List Char}
    {j j' : ℕ} (h : cols.findIdx? (fun x => x == c) = some j)
    (h' : cols.findIdx? (fun x => x == c') = some j') (hne : ¬(c' = c)) :
    j' ≠ j := by
  intro he
  subst he
  obtain ⟨_, e1⟩ := findIdx?_col_some h
  obtain ⟨_, e2⟩ := findIdx?_col_some h'
  exact hne (e2.symm.trans e1)

theorem setAt_rows_length (df : PdDF) (i : ℕ) (c : List Char) (v : PdVal) :
    (setAt df i c v).rows.length = df.rows.length := by
  unfold setAt
  rcases hf : df.columns.findIdx? (fun x => x == c) with _ | j <;> simp

theorem setAt_columns_mem {df : PdDF} {c : List Char} (hc : c ∈ df.columns)
    (i : ℕ) (v : PdVal) : (setAt df i c v).columns = df.columns := by
  unfold setAt
  rcases hf : df.columns.findIdx? (fun x => x == c) with _ | j
  · have := List.findIdx?_eq_none_iff.mp hf c hc
    simp at this
  · rfl

theorem setAt_columns_new {df : PdDF} {c : List Char} (hc : c ∉ df.columns)
    (i : ℕ) (v : PdVal) : (setAt df i c v).columns = df.columns ++ [c] := by
  unfold setAt
  rw [findIdx?_col_none hc]

theorem rowD_length {df : PdDF} (hal : Aligned df) {i : ℕ}
    (hi : i < df.rows.length) :
    (df.rows.getD i []).length = df.columns.length := by
  rw [List.getD_eq_getElem _ _ hi]
  exact hal _ (List.getElem_mem hi)

theorem setAt_aligned {df : PdDF} (hal : Aligned df) {i : ℕ}
    (hi : i < df.rows.length) (c : List Char) (v : PdVal) :
    Aligned (setAt df i c v) := by
  have hrowi := rowD_length hal hi
  unfold setAt Aligned
  rcases hf : df.columns.findIdx? (fun x => x == c) with _ | j
  · intro r hr
    simp only at hr
    rcases List.mem_or_eq_of_mem_set hr with hr | rfl
    · rw [List.mem_map] at hr
      obtain ⟨r0, hr0, rfl⟩ := hr
      simp [hal r0 hr0]
    · rw [List.length_set, List.getD_eq_getElem _ _ (by simpa using hi),
        List.getElem_map]
      simp [hal _ (List.getElem_mem hi)]
  · intro r hr
    simp only at hr
    rcases List.mem_or_eq_of_mem_set hr with hr | rfl
    · exact hal r hr
    · rw [List.length_set]
      exact hrowi

theorem getCell_not_mem {df : PdDF} {c : List Char} (hc : c ∉ df.columns)
    (i : ℕ) : getCell df i c = none := by
  unfold getCell
  rw [findIdx?_col_none hc]

theorem rows_set_getD_ne {rows : List (List PdVal)} {i i' : ℕ}
    (hii : ¬(i' = i)) (R : List PdVal) :
    (rows.set i R).getD i' [] = rows.getD i' [] := by
  rw [List.getD_eq_getElem?_getD, List.getD_eq_getElem?_getD,
    List.getElem?_set_ne (fun he => hii he.symm)]

theorem rows_set_getD_self {rows : List (List PdVal)} {i : ℕ}
    (hi : i < rows.length) (R : List PdVal) :
    (rows.set i R).getD i [] = R := by
  rw [List.getD_eq_getElem?_getD, List.getElem?_set_self hi]
  rfl

theorem row_set_getD_ne {r : List PdVal} {j j' : ℕ} (hjj : ¬(j' = j)) (v : PdVal) :
    (r.set j v).getD j' .nan = r.getD j' .nan := by
  rw [List.getD_eq_getElem?_getD, List.getD_eq_getElem?_getD,
    List.getElem?_set_ne (fun he => hjj he.symm)]

theorem row_set_getD_self {r : List PdVal} {j : ℕ} (hj : j < r.length) (v : PdVal) :
    (r.set j v).getD j .nan = v := by
  rw [List.getD_eq_getElem?_getD, List.getElem?_set_self hj]
  rfl

theorem rows_map_nan_getD {rows : List (List PdVal)} {i : ℕ} (hi : i < rows.length) :
    (rows.map (fun r => r ++ [PdVal.nan])).getD i [] =
      rows.getD i [] ++ [PdVal.nan] := by
  rw [List.getD_eq_getElem _ _ (by simpa using hi), List.getElem_map,
    List.getD_eq_getElem _ _ hi]

theorem append_getD_lt {r : List PdVal} {j : ℕ} (hj : j < r.length)
    (x : List PdVal) : (r ++ x).getD j .nan = r.getD j .nan :=
  List.getD_append _ _ _ _ hj

theorem append_nan_getD_len (r : List PdVal) :
    (r ++ [PdVal.nan]).getD r.length .nan = PdVal.nan := by
  rw [List.getD_append_right _ _ _ _ (le_refl _)]
  simp

theorem mem_of_findIdx?_col_some {cols : List (List Char)} {c : List Char} {j : ℕ}
    (h : cols.findIdx? (fun x => x == c) = some j) : c ∈ cols := by
  obtain ⟨hj, he⟩ := findIdx?_col_some h
  rw [← he, List.getD_eq_getElem _ _ hj]
  exact List.getElem_mem hj

theorem not_mem_of_findIdx?_col_none {cols : List (List Char)} {c : List Char}
    (h : cols.findIdx? (fun x => x == c) = none) : c ∉ cols := by
  intro hmem
  have hx := List.findIdx?_eq_none_iff.mp h c hmem
  simp at hx

theorem findIdx?_append_self {cols : List (List Char)} {c : List Char}
    (hc : c ∉ cols) :
    (cols ++ [c]).findIdx? (fun x => x == c) = some cols.length := by
  rw [List.findIdx?_append, findIdx?_col_none hc]
  simp [List.findIdx?_cons]

theorem findIdx?_append_other {cols : List (List Char)} {c c' : List Char}
    (hne : ¬(c' = c)) :
    (cols ++ [c]).findIdx? (fun x => x == c') = cols.findIdx? (fun x => x == c') := by
  rw [List.findIdx?_append]
  have hsing : ([c].findIdx? (fun x => x == c')) = none := by
    simp [List.findIdx?_cons, beq_eq_false_iff_ne.mpr (fun he => hne he.symm)]
  rw [hsing]
  simp

theorem getCell_setAt_ne {df : PdDF} {c c' : List Char} (hne : ¬(c' = c))
    (hal : Aligned df) {i i' : ℕ} (hi : i < df.rows.length)
    (hi' : i' < df.rows.length) (v : PdVal) :
    getCell (setAt df i c v) i' c' = getCell df i' c' := by
  unfold setAt getCell
  rcases hf : df.columns.findIdx? (fun x => x == c) with _ | j <;> simp only [hf]
  · rw [findIdx?_append_other hne]
    rcases hf' : df.columns.findIdx? (fun x => x == c') with _ | j'
    · simp only [hf']
    · simp only [hf']
      have hj' : j' < df.columns.length := (findIdx?_col_some hf').1
      congr 1
      by_cases hii : i' = i
      · subst hii
        rw [rows_set_getD_self (by simpa using hi') _,
          row_set_getD_ne (show ¬(j' = df.columns.length) from by omega) v,
          rows_map_nan_getD hi']
        exact append_getD_lt (by rw [rowD_length hal hi']; exact hj') _
      · rw [rows_set_getD_ne hii _, rows_map_nan_getD hi']
        exact append_getD_lt (by rw [rowD_length hal hi']; exact hj') _
  · rcases hf' : df.columns.findIdx? (fun x => x == c') with _ | j'
    · simp only [hf']
    · simp only [hf']
      have hjj : j' ≠ j := findIdx?_col_ne_of_ne hf hf' hne
      congr 1
      by_cases hii : i' = i
      · subst hii
        rw [rows_set_getD_self hi' _, row_set_getD_ne hjj v]
      · rw [rows_set_getD_ne hii _]

theorem getCell_setAt_self {df : PdDF} (hal : Aligned df) {i : ℕ}
    (hi : i < df.rows.length) (c : List Char) (v : PdVal) :
    getCell (setAt df i c v) i c = some v := by
  unfold setAt getCell
  rcases hf : df.columns.findIdx? (fun x => x == c) with _ | j <;> simp only [hf]
  · rw [findIdx?_append_self (not_mem_of_findIdx?_col_none hf)]
    refine Eq.trans (congrArg some ?_) rfl
    rw [rows_set_getD_self (by simpa using hi) _]
    have hlen : ((df.rows.map (fun r => r ++ [PdVal.nan])).getD i []).length =
        df.columns.length + 1 := by
      rw [rows_map_nan_getD hi, List.length_append, rowD_length hal hi]
      rfl
    refine row_set_getD_self ?_ v
    omega
  · congr 1
    rw [rows_set_getD_self hi _]
    exact row_set_getD_self
      (by rw [rowD_length hal hi]; exact (findIdx?_col_some hf).1) v

theorem getCell_setAt_row_mem {df : PdDF} {c : List Char} (hc : c ∈ df.columns)
    {i i' : ℕ} (hii : ¬(i' = i)) (v : PdVal) :
    getCell (setAt df i c v) i' c = getCell df i' c := by
  unfold setAt getCell
  rcases hf : df.columns.findIdx? (fun x => x == c) with _ | j <;> simp only [hf]
  · exact absurd hc (not_mem_of_findIdx?_col_none hf)
  · congr 1
    rw [rows_set_getD_ne hii]

theorem getCell_setAt_row_new {df : PdDF} {c : List Char} (hc : c ∉ df.columns)
    (hal : Aligned df) {i i' : ℕ} (hi : i < df.rows.length) (hii : ¬(i' = i))
    (hi' : i' < df.rows.length) (v : PdVal) :
    getCell (setAt df i c v) i' c = some PdVal.nan := by
  unfold setAt getCell
  rcases hf : df.columns.findIdx? (fun x => x == c) with _ | j <;> simp only [hf]
  · rw [findIdx?_append_self hc]
    refine Eq.trans (congrArg some ?_) rfl
    rw [rows_set_getD_ne hii, rows_map_nan_getD hi',
      show df.columns.length = (df.rows.getD i' []).length from
        (rowD_length hal hi').symm]
    exact append_nan_getD_len _
  · exact absurd (mem_of_findIdx?_col_some hf) hc

theorem afLoop_present (fetch : List Char → Option (List IRow)) :
    ∀ (pairs : List (ℕ × List Char)) (df out : PdDF),
    Aligned df → featTYPE ∈ df.columns → featCOLLECTION_SIZE ∈ df.columns →
    List.Pairwise (fun p q => p.1 < q.1) pairs →
    afLoop fetch pairs df = .ok out →
    (out.rows.length = df.rows.length ∧ out.columns = df.columns) ∧
    (∀ i' c, ¬(c = featTYPE) → ¬(c = featCOLLECTION_SIZE) →
      i' < df.rows.length → getCell out i' c = getCell df i' c) ∧
    (∀ i', i' < df.rows.length →
      i' ∉ (pairs.takeWhile (fun p => decide (p.1 < df.rows.length))).map Prod.fst →
      getCell out i' featTYPE = getCell df i' featTYPE ∧
      getCell out i' featCOLLECTION_SIZE = getCell df i' featCOLLECTION_SIZE) ∧
    (∀ p ∈ pairs.takeWhile (fun p => decide (p.1 < df.rows.length)),
      ∃ d, get_museum_features (fetch p.2) = .ok d ∧
        getCell out p.1 featTYPE = some (PdVal.s (featureType d)) ∧
        getCell out p.1 featCOLLECTION_SIZE = some (sizeToVal (featureSize d))) := by
  intro pairs
  induction pairs with
  | nil =>
    intro df out _ _ _ _ h
    have hdf : df = out := Except.ok.inj h
    subst hdf
    exact ⟨⟨rfl, rfl⟩, fun _ _ _ _ _ => rfl, fun _ _ _ => ⟨rfl, rfl⟩,
      fun p hp => by cases hp⟩
  | cons hd rest ih =>
    intro df out hal htm hsm hpw h
    obtain ⟨i, url⟩ := hd
    simp only [afLoop] at h
    by_cases hlen : df.rows.length ≤ i
    · rw [if_pos hlen] at h
      have hdf : df = out := Except.ok.inj h
      subst hdf
      have htw : (((i, url) :: rest).takeWhile
          (fun p => decide (p.1 < df.rows.length))) = [] := by
        rw [List.takeWhile_cons]
        simp [decide_eq_false (by omega : ¬(i < df.rows.length))]
      rw [htw]
      exact ⟨⟨rfl, rfl⟩, fun _ _ _ _ _ => rfl, fun _ _ _ => ⟨rfl, rfl⟩,
        fun p hp => by cases hp⟩
    · rw [if_neg hlen] at h
      have hi : i < df.rows.length := by omega
      rcases hg : get_museum_features (fetch url) with e | fd
      · simp only [hg] at h
        cases h
      · simp only [hg] at h
        have hal1 : Aligned (setAt df i featTYPE (PdVal.s (featureType fd))) :=
          setAt_aligned hal hi _ _
        have len1 : (setAt df i featTYPE (PdVal.s (featureType fd))).rows.length =
            df.rows.length := setAt_rows_length df i _ _
        have cols1 : (setAt df i featTYPE (PdVal.s (featureType fd))).columns =
            df.columns := setAt_columns_mem htm i _
        have hi1 : i < (setAt df i featTYPE (PdVal.s (featureType fd))).rows.length := by
          rw [len1]
          exact hi
        have hal2 : Aligned (setAt (setAt df i featTYPE (PdVal.s (featureType fd)))
            i featCOLLECTION_SIZE (sizeToVal (featureSize fd))) :=
          setAt_aligned hal1 hi1 _ _
        have len2 : (setAt (setAt df i featTYPE (PdVal.s (featureType fd)))
            i featCOLLECTION_SIZE (sizeToVal (featureSize fd))).rows.length =
            df.rows.length := by
          rw [setAt_rows_length, len1]
        have cols2 : (setAt (setAt df i featTYPE (PdVal.s (featureType fd)))
            i featCOLLECTION_SIZE (sizeToVal (featureSize fd))).columns =
            df.columns := by
          rw [setAt_columns_mem (by rw [cols1]; exact hsm) i, cols1]
        obtain ⟨hpw1, hpw2⟩ := List.pairwise_cons.mp hpw
        have IH := ih _ out hal2 (by rw [cols2]; exact htm) (by rw [cols2]; exact hsm)
          hpw2 h
        rw [len2] at IH
        have htw : (((i, url) :: rest).takeWhile
            (fun p => decide (p.1 < df.rows.length))) =
            (i, url) :: rest.takeWhile (fun p => decide (p.1 < df.rows.length)) := by
          rw [List.takeWhile_cons]
          simp [decide_eq_true hi]
        have hinotin : i ∉ (rest.takeWhile
            (fun p => decide (p.1 < df.rows.length))).map Prod.fst := by
          intro hmem
          rw [List.mem_map] at hmem
          obtain ⟨q, hq, hq2⟩ := hmem
          have := hpw1 q ((List.takeWhile_prefix _).subset hq)
          omega
        refine ⟨⟨IH.1.1, IH.1.2.trans cols2⟩, ?_, ?_, ?_⟩
        · intro i' c hct hcs hi'
          rw [IH.2.1 i' c hct hcs hi']
          rw [getCell_setAt_ne hcs hal1 hi1 (by rw [len1]; exact hi') _]
          exact getCell_setAt_ne hct hal hi hi' _
        · intro i' hi' hnin
          rw [htw] at hnin
          simp only [List.map_cons, List.mem_cons] at hnin
          push_neg at hnin
          obtain ⟨hii, hnin⟩ := hnin
          obtain ⟨e1, e2⟩ := IH.2.2.1 i' hi' hnin
          constructor
          · rw [e1, getCell_setAt_ne (by decide) hal1 hi1 (by rw [len1]; exact hi') _]
            exact getCell_setAt_row_mem htm (fun he => hii he) _
          · rw [e2, getCell_setAt_row_mem (by rw [cols1]; exact hsm)
              (fun he => hii he) _]
            exact getCell_setAt_ne (by decide) hal hi hi' _
        · intro p hp
          rw [htw] at hp
          rcases List.mem_cons.mp hp with rfl | hp
          · refine ⟨fd, hg, ?_, ?_⟩
            · obtain ⟨e1, _⟩ := IH.2.2.1 i hi hinotin
              rw [e1, getCell_setAt_ne (by decide) hal1 hi1 (by rw [len1]; exact hi) _]
              exact getCell_setAt_self hal hi _ _
            · obtain ⟨_, e2⟩ := IH.2.2.1 i hi hinotin
              rw [e2]
              exact getCell_setAt_self hal1 hi1 _ _
          · exact IH.2.2.2 p hp

theorem afLoop_absent (fetch : List Char → Option (List IRow))
    (pairs : List (ℕ × List Char)) (df out : PdDF)
    (hal : Aligned df) (ht : featTYPE ∉ df.columns)
    (hs : featCOLLECTION_SIZE ∉ df.columns)
    (hpw : List.Pairwise (fun p q => p.1 < q.1) pairs)
    (h : afLoop fetch pairs df = .ok out) :
    out.rows.length = df.rows.length ∧
    (∀ c ∈ df.columns, ∀ i', i' < df.rows.length →
      getCell out i' c = getCell df i' c) ∧
    (∀ i', i' < df.rows.length →
      i' ∉ (pairs.takeWhile (fun p => decide (p.1 < df.rows.length))).map Prod.fst →
      getCell out i' featTYPE =
        (if (pairs.takeWhile (fun p => decide (p.1 < df.rows.length))).isEmpty
         then none else some PdVal.nan) ∧
      getCell out i' featCOLLECTION_SIZE =
        (if (pairs.takeWhile (fun p => decide (p.1 < df.rows.length))).isEmpty
         then none else some PdVal.nan)) ∧
    (∀ p ∈ pairs.takeWhile (fun p => decide (p.1 < df.rows.length)),
      ∃ d, get_museum_features (fetch p.2) = .ok d ∧
        getCell out p.1 featTYPE = some (PdVal.s (featureType d)) ∧
        getCell out p.1 featCOLLECTION_SIZE = some (sizeToVal (featureSize d))) := by
  cases pairs with
  | nil =>
    have hdf : df = out := Except.ok.inj h
    subst hdf
    refine ⟨rfl, fun _ _ _ _ => rfl, ?_, fun p hp => by cases hp⟩
    intro i' _ _
    simp [getCell_not_mem ht, getCell_not_mem hs]
  | cons hd rest =>
    obtain ⟨i, url⟩ := hd
    simp only [afLoop] at h
    by_cases hlen : df.rows.length ≤ i
    · rw [if_pos hlen] at h
      have hdf : df = out := Except.ok.inj h
      subst hdf
      have htw : (((i, url) :: rest).takeWhile
          (fun p => decide (p.1 < df.rows.length))) = [] := by
        rw [List.takeWhile_cons]
        simp [decide_eq_false (by omega : ¬(i < df.rows.length))]
      rw [htw]
      refine ⟨rfl, fun _ _ _ _ => rfl, ?_, fun p hp => by cases hp⟩
      intro i' _ _
      simp [getCell_not_mem ht, getCell_not_mem hs]
    · rw [if_neg hlen] at h
      have hi : i < df.rows.length := by omega
      rcases hg : get_museum_features (fetch url) with e | fd
      · simp only [hg] at h
        cases h
      · simp only [hg] at h
        have hal1 : Aligned (setAt df i featTYPE (PdVal.s (featureType fd))) :=
          setAt_aligned hal hi _ _
        have len1 : (setAt df i featTYPE (PdVal.s (featureType fd))).rows.length =
            df.rows.length := setAt_rows_length df i _ _
        have cols1 : (setAt df i featTYPE (PdVal.s (featureType fd))).columns =
            df.columns ++ [featTYPE] := setAt_columns_new ht i _
        have hs1 : featCOLLECTION_SIZE ∉
            (setAt df i featTYPE (PdVal.s (featureType fd))).columns := by
          rw [cols1]
          intro hmem
          rcases List.mem_append.mp hmem with hmem | hmem
          · exact hs hmem
          · simp at hmem
            exact absurd hmem (by decide)
        have hi1 : i < (setAt df i featTYPE (PdVal.s (featureType fd))).rows.length := by
          rw [len1]
          exact hi
        have hal2 : Aligned (setAt (setAt df i featTYPE (PdVal.s (featureType fd)))
            i featCOLLECTION_SIZE (sizeToVal (featureSize fd))) :=
          setAt_aligned hal1 hi1 _ _
        have len2 : (setAt (setAt df i featTYPE (PdVal.s (featureType fd)))
            i featCOLLECTION_SIZE (sizeToVal (featureSize fd))).rows.length =
            df.rows.length := by
          rw [setAt_rows_length, len1]
        have cols2 : (setAt (setAt df i featTYPE (PdVal.s (featureType fd)))
            i featCOLLECTION_SIZE (sizeToVal (featureSize fd))).columns =
            (df.columns ++ [featTYPE]) ++ [featCOLLECTION_SIZE] := by
          rw [setAt_columns_new hs1 i, cols1]
        obtain ⟨hpw1, hpw2⟩ := List.pairwise_cons.mp hpw
        have IH := afLoop_present fetch rest _ out hal2
          (by rw [cols2]; simp) (by rw [cols2]; simp) hpw2 h
        rw [len2] at IH
        have htw : (((i, url) :: rest).takeWhile
            (fun p => decide (p.1 < df.rows.length))) =
            (i, url) :: rest.takeWhile (fun p => decide (p.1 < df.rows.length)) := by
          rw [List.takeWhile_cons]
          simp [decide_eq_true hi]
        have hinotin : i ∉ (rest.takeWhile
            (fun p => decide (p.1 < df.rows.length))).map Prod.fst := by
          intro hmem
          rw [List.mem_map] at hmem
          obtain ⟨q, hq, hq2⟩ := hmem
          have := hpw1 q ((List.takeWhile_prefix _).subset hq)
          omega
        rw [htw]
        refine ⟨IH.1.1, ?_, ?_, ?_⟩
        · intro c hc i' hi'
          have hct : ¬(c = featTYPE) := fun he => ht (he ▸ hc)
          have hcs : ¬(c = featCOLLECTION_SIZE) := fun he => hs (he ▸ hc)
          rw [IH.2.1 i' c hct hcs hi']
          rw [getCell_setAt_ne hcs hal1 hi1 (by rw [len1]; exact hi') _]
          exact getCell_setAt_ne hct hal hi hi' _
        · intro i' hi' hnin
          simp only [List.map_cons, List.mem_cons] at hnin
          push_neg at hnin
          obtain ⟨hii, hnin⟩ := hnin
          obtain ⟨e1, e2⟩ := IH.2.2.1 i' hi' hnin
          rw [show (((i, url) :: rest.takeWhile
              (fun p => decide (p.1 < df.rows.length))).isEmpty) = false from rfl]
          simp only [Bool.false_eq_true, if_false]
          constructor
          · rw [e1, getCell_setAt_ne (by decide) hal1 hi1 (by rw [len1]; exact hi') _]
            exact getCell_setAt_row_new ht hal hi (fun he => hii he) hi' _
          · rw [e2]
            exact getCell_setAt_row_new hs1 hal1 hi1 (fun he => hii he)
              (by rw [len1]; exact hi') _
        · intro p hp
          rcases List.mem_cons.mp hp with rfl | hp
          · refine ⟨fd, hg, ?_, ?_⟩
            · obtain ⟨e1, _⟩ := IH.2.2.1 i hi hinotin
              rw [e1, getCell_setAt_ne (by decide) hal1 hi1 (by rw [len1]; exact hi) _]
              exact getCell_setAt_self hal hi _ _
            · obtain ⟨_, e2⟩ := IH.2.2.1 i hi hinotin
              rw [e2]
              exact getCell_setAt_self hal1 hi1 _ _
          · exact IH.2.2.2 p hp

/-- C10: on a raw-parse frame (no feature columns yet), add_features
writes only the type and collection_size cells of the rows whose index
the link generator yields below the row count: the row count is
unchanged, every pre-existing column keeps every cell, a row the
generator does not reach keeps a missing value (the cell is absent or
the enlargement nan) and never receives the literal N/A default, and
each reached row receives exactly the fetched features through the
defaults of the features.get lookup. -/
theorem claim10_add_features_frame (fetch : List Char → Option (List IRow))
    (df out : PdDF) (table : List TRow) (hal : Aligned df)
    (ht : featTYPE ∉ df.columns) (hs : featCOLLECTION_SIZE ∉ df.columns)
    (h : add_features fetch df table = .ok out) :
    out.rows.length = df.rows.length ∧
    (∀ c ∈ df.columns, ∀ i, i < df.rows.length →
      getCell out i c = getCell df i c) ∧
    (∀ i, i < df.rows.length →
      i ∉ ((museum_wiki_link_generator table).takeWhile
          (fun p => decide (p.1 < df.rows.length))).map Prod.fst →
      (getCell out i featTYPE = none ∨ getCell out i featTYPE = some PdVal.nan) ∧
      ¬(getCell out i featTYPE = some (PdVal.s (chars (r"N/A")))) ∧
      (getCell out i featCOLLECTION_SIZE = none ∨
        getCell out i featCOLLECTION_SIZE = some PdVal.nan)) ∧
    (∀ p ∈ (museum_wiki_link_generator table).takeWhile
        (fun p => decide (p.1 < df.rows.length)),
      ∃ d, get_museum_features (fetch p.2) = .ok d ∧
        getCell out p.1 featTYPE = some (PdVal.s (featureType d)) ∧
        getCell out p.1 featCOLLECTION_SIZE = some (sizeToVal (featureSize d))) := by
  have hpw : List.Pairwise (fun p q => p.1 < q.1)
      (museum_wiki_link_generator table) := by
    have hmf : (museum_wiki_link_generator table).map Prod.fst =
        List.range (((table.drop 1).filterMap rowHref).length) := by
      rw [show museum_wiki_link_generator table = linkGenAux 0 (table.drop 1)
        from rfl, (linkGenAux_spec (table.drop 1) 0).1]
      simp
    have hp : ((museum_wiki_link_generator table).map Prod.fst).Pairwise
        (· < ·) := by
      rw [hmf]
      exact List.pairwise_lt_range _
    exact List.pairwise_map.mp hp
  have A := afLoop_absent fetch (museum_wiki_link_generator table) df out
    hal ht hs hpw h
  refine ⟨A.1, A.2.1, ?_, A.2.2.2⟩
  intro i hi hnin
  obtain ⟨e1, e2⟩ := A.2.2.1 i hi hnin
  by_cases hemp : ((museum_wiki_link_generator table).takeWhile
      (fun p => decide (p.1 < df.rows.length))).isEmpty = true
  · rw [hemp, if_pos rfl] at e1 e2
    refine ⟨Or.inl e1, ?_, Or.inl e2⟩
    rw [e1]
    simp
  · have hemp2 : ((museum_wiki_link_generator table).takeWhile
        (fun p => decide (p.1 < df.rows.length))).isEmpty = false :=
      Bool.eq_false_iff.mpr hemp
    rw [hemp2, if_neg (by simp)] at e1 e2
    refine ⟨Or.inr e1, ?_, Or.inr e2⟩
    rw [e1]
    simp

/-- Witness for C10 at the concrete table whose generator yields only
row 0: row 1 keeps the enlargement nan and never gets the N/A text. -/
theorem claim10_witness :
    (getCell exOut 1 featTYPE = none ∨ getCell exOut 1 featTYPE = some PdVal.nan) ∧
    ¬(getCell exOut 1 featTYPE = some (PdVal.s (chars (r"N/A")))) := by
  have h := (claim10_add_features_frame exFetch exDf exOut exTable
    (by unfold Aligned; decide) (by decide) (by decide) (by rfl)).2.2.1
    1 (by decide) (by decide)
  exact ⟨h.1, h.2.1⟩

end Museum
